import Mathlib

/-!
Verification of the grpc-gateway-file download/upload core.

This file gives a shallow embedding of the repository's Go code
(`file_download.go`, the chunk-stream adapters, `errors.go`) and proves or
refutes the frozen specification claims against it.

Modelling conventions:
* Bytes are `Nat`; byte buffers are `List Nat`.
* Go `int64` values are `Int`; every `strconv.ParseInt` is modelled with the
  explicit `2^63` bound so overflow behaves like the Go code.
* `metadata.MD` is an association list `List (String × String)`; `pick`
  returns the first value for a key ("" when absent), matching the repo's
  generic `pick` helper, and `mdSet`/`mdDelete` model `metadata.MD.Set` /
  `Delete` (the repo only uses lowercase keys, on which gRPC's internal
  lowercasing is the identity).
* Strings handled character-wise (`List Char`); all header text is ASCII.
* External stdlib calls (`http.ParseTime`, `mime.TypeByExtension` composed
  with `filepath.Ext`, `http.DetectContentType`, RFC1123 formatting, the
  random multipart boundary) are parameters bundled in `Env`.
-/

namespace GatewayFile

/-! ## metadata.MD model -/

abbrev MD := List (String × String)

/-- The repo's generic `pick` helper: first value for `key`, "" when absent. -/
def pick (md : MD) (key : String) : String :=
  match md.find? (fun p => p.1 == key) with
  | some p => p.2
  | none => ""

/-- `metadata.MD.Set` restricted to a single value, as the repo uses it. -/
def mdSet (md : MD) (key value : String) : MD :=
  (key, value) :: md.filter (fun p => p.1 != key)

/-- `metadata.MD.Delete`. -/
def mdDelete (md : MD) (key : String) : MD :=
  md.filter (fun p => p.1 != key)

/-- Whether a header key is present at all (Go: `md[k]` membership). -/
def mdLookup (md : MD) (key : String) : Option String :=
  (md.find? (fun p => p.1 == key)).map (fun p => p.2)

theorem find?_filter_keep {α} (p q : α → Bool) (l : List α)
    (h : ∀ a, q a = false → p a = false) :
    (l.filter q).find? p = l.find? p := by
  induction l with
  | nil => rfl
  | cons a t ih =>
    by_cases hq : q a
    · rw [List.filter_cons_of_pos hq]
      by_cases hp : p a
      · rw [List.find?_cons_of_pos _ hp, List.find?_cons_of_pos _ hp]
      · rw [List.find?_cons_of_neg _ (by simpa using hp),
          List.find?_cons_of_neg _ (by simpa using hp)]
        exact ih
    · rw [List.filter_cons_of_neg (by simpa using hq),
        List.find?_cons_of_neg _ (by simp [h a (by simpa using hq)])]
      exact ih

theorem mdLookup_set_same (md : MD) (k v : String) : mdLookup (mdSet md k v) k = some v := by
  simp [mdLookup, mdSet, List.find?]

theorem mdLookup_set_ne (md : MD) (k k' v : String) (h : k ≠ k') :
    mdLookup (mdSet md k v) k' = mdLookup md k' := by
  unfold mdLookup mdSet
  rw [List.find?_cons_of_neg _ (by simpa using h)]
  congr 1
  apply find?_filter_keep
  intro a ha
  simp only [bne, Bool.not_eq_false', beq_iff_eq] at ha
  simp [ha, h]

theorem mdLookup_delete_same (md : MD) (k : String) : mdLookup (mdDelete md k) k = none := by
  unfold mdLookup mdDelete
  induction md with
  | nil => rfl
  | cons p rest ih =>
    by_cases hp : p.1 = k
    · rw [List.filter_cons_of_neg (by simp [hp])]
      exact ih
    · rw [List.filter_cons_of_pos (by simpa using hp),
        List.find?_cons_of_neg _ (by simpa using hp)]
      exact ih

theorem mdLookup_delete_ne (md : MD) (k k' : String) (h : k ≠ k') :
    mdLookup (mdDelete md k) k' = mdLookup md k' := by
  unfold mdLookup mdDelete
  congr 1
  apply find?_filter_keep
  intro a ha
  simp only [bne, Bool.not_eq_false', beq_iff_eq] at ha
  simp [ha, h]

theorem pick_eq_lookup (md : MD) (k : String) :
    pick md k = (mdLookup md k).getD "" := by
  simp [pick, mdLookup]
  cases md.find? (fun p => p.1 == k) <;> simp

theorem pick_set_same (md : MD) (k v : String) : pick (mdSet md k v) k = v := by
  simp [pick_eq_lookup, mdLookup_set_same]

theorem pick_set_ne (md : MD) (k k' v : String) (h : k ≠ k') :
    pick (mdSet md k v) k' = pick md k' := by
  simp [pick_eq_lookup, mdLookup_set_ne md k k' v h]

theorem pick_delete_ne (md : MD) (k k' : String) (h : k ≠ k') :
    pick (mdDelete md k) k' = pick md k' := by
  simp [pick_eq_lookup, mdLookup_delete_ne md k k' h]

theorem pick_nil (k : String) : pick [] k = "" := rfl

theorem pick_cons_ne (p : String × String) (md : MD) (k : String) (h : p.1 ≠ k) :
    pick (p :: md) k = pick md k := by
  unfold pick
  rw [List.find?_cons_of_neg _ (by simpa using h)]

theorem pick_cons_same (v : String) (md : MD) (k : String) :
    pick ((k, v) :: md) k = v := by
  unfold pick
  rw [List.find?_cons_of_pos _ (by simp)]

/-! ## Character and number helpers (Go stdlib behaviour) -/

/-- ASCII bytes of a header string (all header text is ASCII). -/
def strBytes (s : String) : List Nat := s.data.map Char.toNat

/-- `textproto.isASCIISpace`. -/
def isASCIISpace (c : Char) : Bool := c = ' ' || c = '\t' || c = '\n' || c = '\r'

/-- `textproto.TrimString`: trim leading and trailing ASCII space. -/
def trimChars (cs : List Char) : List Char :=
  ((cs.dropWhile isASCIISpace).reverse.dropWhile isASCIISpace).reverse

/-- `strings.Split s ","` on characters. -/
def splitComma : List Char → List (List Char)
  | [] => [[]]
  | c :: rest =>
    if c = ',' then [] :: splitComma rest
    else
      match splitComma rest with
      | h :: t => (c :: h) :: t
      | [] => [[c]]

/-- `strings.Cut s "-"`: split at the first dash; `none` models `ok = false`. -/
def cutDash : List Char → Option (List Char × List Char)
  | [] => none
  | c :: rest =>
    if c = '-' then some ([], rest)
    else (cutDash rest).map (fun p => (c :: p.1, p.2))

/-- Decimal digits with an explicit fuel (structural, so concrete values
evaluate in the kernel); `natDigits` supplies enough fuel. -/
def natDigitsAux : Nat → Nat → List Char
  | 0, _ => []
  | fuel + 1, n =>
    if n < 10 then [Char.ofNat (48 + n)]
    else natDigitsAux fuel (n / 10) ++ [Char.ofNat (48 + n % 10)]

/-- Decimal digit chars of a natural number, most significant first
(models the digit output of `strconv.FormatInt` / `fmt` `%d`). -/
def natDigits (n : Nat) : List Char := natDigitsAux (n + 1) n

/-- Model of `strconv.FormatInt x 10` for a natural number. -/
def fmtNat (n : Nat) : String := ⟨natDigits n⟩

/-- Model of `strconv.FormatInt` / `fmt` `%d` on an `int64` value. -/
def fmtInt (i : Int) : String :=
  if i < 0 then "-" ++ fmtNat i.natAbs else fmtNat i.toNat

/-- Accumulating decimal evaluation; `none` on a non-digit character
(Go `strconv`'s base-10 digit scan). -/
def digitsValAux (acc : Nat) : List Char → Option Nat
  | [] => some acc
  | c :: rest =>
    if 48 ≤ c.toNat ∧ c.toNat ≤ 57 then digitsValAux (acc * 10 + (c.toNat - 48)) rest
    else none

/-- Magnitude part of `strconv.ParseInt`: nonempty digit run whose value fits
the signed 64-bit range (`2^63` for negative values, `2^63 - 1` otherwise). -/
def goParseMag (neg : Bool) (digits : List Char) : Option Int :=
  if digits = [] then none
  else
    match digitsValAux 0 digits with
    | none => none
    | some v =>
      if neg then (if v > 2 ^ 63 then none else some (-(v : Int)))
      else (if v > 2 ^ 63 - 1 then none else some (v : Int))

/-- Model of `strconv.ParseInt s 10 64`: optional sign, nonempty digit run,
value within `int64` range; `none` models a parse error. -/
def goParseInt64 (cs : List Char) : Option Int :=
  match cs with
  | [] => none
  | c :: rest =>
    if c = '-' then goParseMag true rest
    else if c = '+' then goParseMag false rest
    else goParseMag false (c :: rest)

/-- `joinComma` is the inverse image we use for comma-separated headers. -/
def joinComma : List (List Char) → List Char
  | [] => []
  | [p] => p
  | p :: ps => p ++ ',' :: joinComma ps

/-! ### Lemmas about the helpers -/

theorem digitChar_bounds : ∀ m, m < 10 →
    48 ≤ (Char.ofNat (48 + m)).toNat ∧ (Char.ofNat (48 + m)).toNat ≤ 57 := by
  decide

theorem natDigitsAux_mem_digit (fuel : Nat) :
    ∀ n, n < fuel → ∀ c ∈ natDigitsAux fuel n, 48 ≤ c.toNat ∧ c.toNat ≤ 57 := by
  induction fuel with
  | zero => intro n hn; omega
  | succ f ih =>
    intro n hn c hc
    rw [natDigitsAux] at hc
    by_cases h : n < 10
    · rw [if_pos h, List.mem_singleton] at hc
      subst hc
      exact digitChar_bounds n h
    · rw [if_neg h, List.mem_append, List.mem_singleton] at hc
      rcases hc with hc | rfl
      · exact ih (n / 10) (by omega) c hc
      · exact digitChar_bounds (n % 10) (by omega)

theorem natDigits_mem_digit (n : Nat) :
    ∀ c ∈ natDigits n, 48 ≤ c.toNat ∧ c.toNat ≤ 57 :=
  natDigitsAux_mem_digit (n + 1) n (by omega)

theorem natDigits_ne_nil (n : Nat) : natDigits n ≠ [] := by
  unfold natDigits natDigitsAux
  by_cases h : n < 10 <;> simp [h]

theorem digit_not_space (c : Char) (h1 : 48 ≤ c.toNat) (h2 : c.toNat ≤ 57) :
    isASCIISpace c = false := by
  unfold isASCIISpace
  have t1 : c ≠ ' ' := by rintro rfl; exact absurd h1 (by decide)
  have t2 : c ≠ '\t' := by rintro rfl; exact absurd h1 (by decide)
  have t3 : c ≠ '\n' := by rintro rfl; exact absurd h1 (by decide)
  have t4 : c ≠ '\r' := by rintro rfl; exact absurd h1 (by decide)
  simp [t1, t2, t3, t4]

theorem digit_ne_comma (c : Char) (h1 : 48 ≤ c.toNat) : c ≠ ',' := by
  rintro rfl; exact absurd h1 (by decide)

theorem digit_ne_dash (c : Char) (h1 : 48 ≤ c.toNat) : c ≠ '-' := by
  rintro rfl; exact absurd h1 (by decide)

theorem dropWhile_all_false {p : α → Bool} {l : List α} (h : ∀ c ∈ l, p c = false) :
    l.dropWhile p = l := by
  cases l with
  | nil => rfl
  | cons a t => rw [List.dropWhile_cons_of_neg (by simp [h a (by simp)])]

theorem trimChars_eq_self (cs : List Char) (h : ∀ c ∈ cs, isASCIISpace c = false) :
    trimChars cs = cs := by
  unfold trimChars
  rw [dropWhile_all_false h, dropWhile_all_false (by intro c hc; exact h c (by simpa using hc)),
    List.reverse_reverse]

theorem splitComma_cons_ne (a : Char) (t : List Char) (h : a ≠ ',') :
    splitComma (a :: t) =
      match splitComma t with
      | h :: tl => (a :: h) :: tl
      | [] => [[a]] := by
  show (if a = ',' then [] :: splitComma t
    else match splitComma t with
      | h :: tl => (a :: h) :: tl
      | [] => [[a]]) = _
  rw [if_neg h]

theorem splitComma_no_comma (cs : List Char) (h : ∀ c ∈ cs, c ≠ ',') :
    splitComma cs = [cs] := by
  induction cs with
  | nil => rfl
  | cons a t ih =>
    rw [splitComma_cons_ne a t (h a (by simp)), ih (fun c hc => h c (by simp [hc]))]

theorem splitComma_append_comma (xs ys : List Char) (h : ∀ c ∈ xs, c ≠ ',') :
    splitComma (xs ++ ',' :: ys) = xs :: splitComma ys := by
  induction xs with
  | nil => simp [splitComma]
  | cons a t ih =>
    rw [List.cons_append, splitComma_cons_ne a _ (h a (by simp)),
      ih (fun c hc => h c (by simp [hc]))]

theorem splitComma_joinComma (ps : List (List Char)) (hne : ps ≠ [])
    (h : ∀ p ∈ ps, ∀ c ∈ p, c ≠ ',') :
    splitComma (joinComma ps) = ps := by
  induction ps with
  | nil => exact absurd rfl hne
  | cons p rest ih =>
    cases rest with
    | nil =>
      show splitComma (joinComma [p]) = [p]
      unfold joinComma
      exact splitComma_no_comma p (h p (by simp))
    | cons q rest' =>
      show splitComma (p ++ ',' :: joinComma (q :: rest')) = p :: q :: rest'
      rw [splitComma_append_comma p _ (h p (by simp)),
        ih (by simp) (fun r hr c hc => h r (by simp [hr]) c hc)]

theorem cutDash_append (xs ys : List Char) (h : ∀ c ∈ xs, c ≠ '-') :
    cutDash (xs ++ '-' :: ys) = some (xs, ys) := by
  induction xs with
  | nil => simp [cutDash]
  | cons a t ih =>
    simp only [List.cons_append]
    unfold cutDash
    rw [if_neg (h a (by simp)), ih (fun c hc => h c (by simp [hc]))]
    rfl

theorem digitsValAux_nil (acc : Nat) : digitsValAux acc [] = some acc := rfl

theorem digitsValAux_cons (acc : Nat) (c : Char) (rest : List Char) :
    digitsValAux acc (c :: rest) =
      if 48 ≤ c.toNat ∧ c.toNat ≤ 57 then digitsValAux (acc * 10 + (c.toNat - 48)) rest
      else none := rfl

theorem digitsValAux_append (acc : Nat) (xs ys : List Char) :
    digitsValAux acc (xs ++ ys) =
      (digitsValAux acc xs).bind (fun m => digitsValAux m ys) := by
  induction xs generalizing acc with
  | nil => rfl
  | cons c t ih =>
    rw [List.cons_append, digitsValAux_cons, digitsValAux_cons]
    by_cases hc : 48 ≤ c.toNat ∧ c.toNat ≤ 57
    · rw [if_pos hc, if_pos hc]
      exact ih _
    · rw [if_neg hc, if_neg hc]
      rfl

theorem digitsValAux_natDigitsAux (fuel : Nat) :
    ∀ n acc, n < fuel →
      digitsValAux acc (natDigitsAux fuel n) =
        some (acc * 10 ^ (natDigitsAux fuel n).length + n) := by
  induction fuel with
  | zero => intro n acc hn; omega
  | succ f ih =>
    intro n acc hn
    have hv : ∀ m, m < 10 → (Char.ofNat (48 + m)).toNat = 48 + m := by decide
    rw [natDigitsAux]
    by_cases h : n < 10
    · rw [if_pos h, digitsValAux_cons, if_pos (by rw [hv n h]; omega), digitsValAux_nil]
      simp [hv n h]
    · have hm : n % 10 < 10 := Nat.mod_lt _ (by omega)
      rw [if_neg h, digitsValAux_append, ih (n / 10) acc (by omega), Option.some_bind,
        digitsValAux_cons, if_pos (by rw [hv _ hm]; omega), digitsValAux_nil]
      congr 1
      rw [hv _ hm, List.length_append, List.length_singleton, pow_succ]
      have hdm : 10 * (n / 10) + n % 10 = n := Nat.div_add_mod n 10
      have hnm : 48 + n % 10 - 48 = n % 10 := by omega
      rw [hnm]
      calc (acc * 10 ^ (natDigitsAux f (n / 10)).length + n / 10) * 10 + n % 10
          = acc * (10 ^ (natDigitsAux f (n / 10)).length * 10) + (10 * (n / 10) + n % 10) := by
            ring
        _ = acc * (10 ^ (natDigitsAux f (n / 10)).length * 10) + n := by rw [hdm]

theorem digitsValAux_natDigits (acc n : Nat) :
    digitsValAux acc (natDigits n) = some (acc * 10 ^ (natDigits n).length + n) :=
  digitsValAux_natDigitsAux (n + 1) n acc (by omega)

theorem goParseMag_pos (digits : List Char) (v : Nat) (hd : digits ≠ [])
    (hval : digitsValAux 0 digits = some v) (hb : v ≤ 2 ^ 63 - 1) :
    goParseMag false digits = some (v : Int) := by
  unfold goParseMag
  rw [if_neg hd, hval]
  simp only [Bool.false_eq_true, if_false]
  rw [if_neg (by omega)]

theorem goParseInt64_natDigits (n : Nat) (h : n ≤ 2 ^ 63 - 1) :
    goParseInt64 (natDigits n) = some (n : Int) := by
  obtain ⟨c, rest, hcr⟩ : ∃ c rest, natDigits n = c :: rest := by
    cases hnd : natDigits n with
    | nil => exact absurd hnd (natDigits_ne_nil n)
    | cons c rest => exact ⟨c, rest, rfl⟩
  have hdig := natDigits_mem_digit n
  have hc : 48 ≤ c.toNat := ((hdig c (by rw [hcr]; simp)).1)
  have hnotdash : c ≠ '-' := digit_ne_dash c hc
  have hnotplus : c ≠ '+' := by rintro rfl; exact absurd hc (by decide)
  have hval : digitsValAux 0 (c :: rest) = some n := by
    rw [← hcr]
    simpa using digitsValAux_natDigits 0 n
  rw [hcr]
  show (if c = '-' then goParseMag true rest
    else if c = '+' then goParseMag false rest
    else goParseMag false (c :: rest)) = some (n : Int)
  rw [if_neg hnotdash, if_neg hnotplus]
  exact goParseMag_pos _ n (by simp) hval h

theorem natDigits_no_comma (n : Nat) : ∀ c ∈ natDigits n, c ≠ ',' :=
  fun c hc => digit_ne_comma c (natDigits_mem_digit n c hc).1

theorem natDigits_no_dash (n : Nat) : ∀ c ∈ natDigits n, c ≠ '-' :=
  fun c hc => digit_ne_dash c (natDigits_mem_digit n c hc).1

theorem natDigits_no_space (n : Nat) : ∀ c ∈ natDigits n, isASCIISpace c = false :=
  fun c hc => digit_not_space c (natDigits_mem_digit n c hc).1 (natDigits_mem_digit n c hc).2

/-! ## Range parsing (`parseRange`, `httpRange` in file_download.go) -/

/-- The parser's two failure modes (`ErrInvalidRange`, `ErrNoOverlap` in errors.go). -/
inductive RangeError where
  | invalidRange
  | noOverlap
deriving DecidableEq, Repr

/-- `ErrInvalidRange.Error()` / `ErrNoOverlap.Error()` from errors.go. -/
def rangeErrorText : RangeError → String
  | .invalidRange => "invalid range"
  | .noOverlap => "invalid range: failed to overlap"

/-- `httpRange` (a copy of `http.httpRange`): a resolved byte range. -/
structure HttpRange where
  start : Int
  length : Int
deriving DecidableEq, Repr

/-- `httpRange.contentRange`. -/
def contentRange (r : HttpRange) (size : Int) : String :=
  "bytes " ++ fmtInt r.start ++ "-" ++ fmtInt (r.start + r.length - 1) ++ "/" ++ fmtInt size

/-- Per-spec outcome inside the `parseRange` loop. -/
inductive SpecResult where
  | malformed
  | noOverlap
  | range (r : HttpRange)
deriving DecidableEq, Repr

/-- One `start-end` / `start-` / `-suffix` spec, exactly as the loop body of
`parseRange` handles it (after the spec was trimmed and found nonempty). -/
def parseSpec (size : Int) (ra : List Char) : SpecResult :=
  match cutDash ra with
  | none => .malformed
  | some (s0, e0) =>
    if trimChars s0 = [] then
      -- `-suffixLength`: suffix must be a nonempty non-negative integer.
      if trimChars e0 = [] ∨ (trimChars e0).head? = some '-' then .malformed
      else
        match goParseInt64 (trimChars e0) with
        | none => .malformed
        | some i =>
          if i < 0 then .malformed
          else
            .range ⟨size - (if i > size then size else i),
              size - (size - (if i > size then size else i))⟩
    else
      match goParseInt64 (trimChars s0) with
      | none => .malformed
      | some i =>
        if i < 0 then .malformed
        else if i ≥ size then .noOverlap
        else if trimChars e0 = [] then .range ⟨i, size - i⟩
        else
          match goParseInt64 (trimChars e0) with
          | none => .malformed
          | some j =>
            if i > j then .malformed
            else .range ⟨i, (if j ≥ size then size - 1 else j) - i + 1⟩

/-- The `for _, ra := range splitted` loop: collect resolved ranges and the
sticky `noOverlap` flag, failing fast on a malformed spec. -/
def parseSpecs (size : Int) : List (List Char) → Except RangeError (List HttpRange × Bool)
  | [] => .ok ([], false)
  | ra :: rest =>
    if trimChars ra = [] then parseSpecs size rest
    else
      match parseSpec size (trimChars ra) with
      | .malformed => .error .invalidRange
      | .noOverlap =>
        match parseSpecs size rest with
        | .error e => .error e
        | .ok (rs, _) => .ok (rs, true)
      | .range r =>
        match parseSpecs size rest with
        | .error e => .error e
        | .ok (rs, f) => .ok (r :: rs, f)

/-- `parseRange` over the characters of the header value. -/
def parseRangeChars (cs : List Char) (size : Int) : Except RangeError (List HttpRange) :=
  if cs = [] then .ok []  -- header not present
  else if cs.take 6 ≠ ['b', 'y', 't', 'e', 's', '='] then .error .invalidRange
  else
    match parseSpecs size (splitComma (cs.drop 6)) with
    | .error e => .error e
    | .ok (rs, noOv) => if noOv ∧ rs = [] then .error .noOverlap else .ok rs

/-- `parseRange` from file_download.go. -/
def parseRange (s : String) (size : Int) : Except RangeError (List HttpRange) :=
  parseRangeChars s.data size

/-- `sumRangesSize`. -/
def sumRangesSize (ranges : List HttpRange) : Int :=
  ranges.foldl (fun acc r => acc + r.length) 0

/-! ### Parser invariants and characterizations -/

theorem parseSpec_invariant (size : Int) (ra : List Char) (r : HttpRange)
    (hsize : 0 ≤ size) (h : parseSpec size ra = .range r) :
    0 ≤ r.start ∧ 0 ≤ r.length ∧ r.start + r.length ≤ size := by
  unfold parseSpec at h
  split at h
  · exact absurd h (by simp)
  · split at h
    · -- suffix spec
      split at h
      · exact absurd h (by simp)
      · split at h
        · exact absurd h (by simp)
        · split at h
          · exact absurd h (by simp)
          · rename_i i _ hneg
            rw [SpecResult.range.injEq] at h
            subst h
            dsimp only
            split <;> constructor <;> omega
    · split at h
      · exact absurd h (by simp)
      · rename_i i hneg
        split at h
        · exact absurd h (by simp)
        · rename_i hge
          split at h
          · exact absurd h (by simp)
          · split at h
            · rw [SpecResult.range.injEq] at h
              subst h
              dsimp only
              constructor
              · omega
              constructor <;> omega
            · split at h
              · exact absurd h (by simp)
              · rename_i j
                split at h
                · exact absurd h (by simp)
                · rename_i hij
                  rw [SpecResult.range.injEq] at h
                  subst h
                  dsimp only
                  split <;> (constructor; · omega
                             constructor <;> omega)

theorem parseSpecs_invariant (size : Int) (specs : List (List Char))
    (rs : List HttpRange) (f : Bool) (hsize : 0 ≤ size)
    (h : parseSpecs size specs = .ok (rs, f)) :
    ∀ r ∈ rs, 0 ≤ r.start ∧ 0 ≤ r.length ∧ r.start + r.length ≤ size := by
  induction specs generalizing rs f with
  | nil =>
    simp only [parseSpecs, Except.ok.injEq, Prod.mk.injEq] at h
    obtain ⟨h1, -⟩ := h
    subst h1
    simp
  | cons ra rest ih =>
    have h' : (if trimChars ra = [] then parseSpecs size rest
      else
        match parseSpec size (trimChars ra) with
        | .malformed => .error .invalidRange
        | .noOverlap =>
          match parseSpecs size rest with
          | .error e => .error e
          | .ok (rs, _) => .ok (rs, true)
        | .range r =>
          match parseSpecs size rest with
          | .error e => .error e
          | .ok (rs, f) => .ok (r :: rs, f)) = Except.ok (rs, f) := h
    clear h
    by_cases hra : trimChars ra = []
    · rw [if_pos hra] at h'
      exact ih rs f h'
    · rw [if_neg hra] at h'
      cases hspec : parseSpec size (trimChars ra) with
      | malformed =>
        rw [hspec] at h'
        exact absurd h' (by simp)
      | noOverlap =>
        rw [hspec] at h'
        cases hrec : parseSpecs size rest with
        | error e =>
          rw [hrec] at h'
          exact absurd h' (by simp)
        | ok p =>
          obtain ⟨rs', f'⟩ := p
          rw [hrec] at h'
          simp only [Except.ok.injEq, Prod.mk.injEq] at h'
          obtain ⟨h1, -⟩ := h'
          subst h1
          exact ih rs' f' hrec
      | range r0 =>
        rw [hspec] at h'
        cases hrec : parseSpecs size rest with
        | error e =>
          rw [hrec] at h'
          exact absurd h' (by simp)
        | ok p =>
          obtain ⟨rs', f'⟩ := p
          rw [hrec] at h'
          simp only [Except.ok.injEq, Prod.mk.injEq] at h'
          obtain ⟨h1, -⟩ := h'
          subst h1
          intro r hr
          rcases List.mem_cons.mp hr with hr0 | hr'
          · subst hr0
            exact parseSpec_invariant size _ r hsize hspec
          · exact ih rs' f' hrec r hr'

theorem abSpec_no_space (a b : Nat) :
    ∀ c ∈ natDigits a ++ '-' :: natDigits b, isASCIISpace c = false := by
  intro c hc
  rcases List.mem_append.mp hc with h | h
  · exact natDigits_no_space a c h
  · rcases List.mem_cons.mp h with rfl | h'
    · decide
    · exact natDigits_no_space b c h'

theorem abSpec_no_comma (a b : Nat) :
    ∀ c ∈ natDigits a ++ '-' :: natDigits b, c ≠ ',' := by
  intro c hc
  rcases List.mem_append.mp hc with h | h
  · exact natDigits_no_comma a c h
  · rcases List.mem_cons.mp h with rfl | h'
    · decide
    · exact natDigits_no_comma b c h'

theorem abSpec_ne_nil (a b : Nat) : natDigits a ++ '-' :: natDigits b ≠ [] := by
  simp

/-- A `start-end` spec whose endpoints satisfy `a ≤ b < size` resolves to the
half-open interval `[a, b+1)`. -/
theorem parseSpec_ab (size : Int) (a b : Nat) (hab : a ≤ b) (hbS : (b : Int) < size)
    (hb64 : b ≤ 2 ^ 63 - 1) :
    parseSpec size (natDigits a ++ '-' :: natDigits b) =
      .range ⟨(a : Int), (b : Int) - (a : Int) + 1⟩ := by
  have hcd : cutDash (natDigits a ++ '-' :: natDigits b) = some (natDigits a, natDigits b) :=
    cutDash_append _ _ (natDigits_no_dash a)
  have hta : trimChars (natDigits a) = natDigits a := trimChars_eq_self _ (natDigits_no_space a)
  have htb : trimChars (natDigits b) = natDigits b := trimChars_eq_self _ (natDigits_no_space b)
  have hpa : goParseInt64 (natDigits a) = some (a : Int) :=
    goParseInt64_natDigits a (le_trans hab hb64)
  have hpb : goParseInt64 (natDigits b) = some (b : Int) := goParseInt64_natDigits b hb64
  unfold parseSpec
  rw [hcd]
  show (if trimChars (natDigits a) = [] then _ else _) = _
  rw [hta, htb, if_neg (natDigits_ne_nil a), hpa]
  dsimp only
  rw [if_neg (by omega), if_neg (by omega), if_neg (natDigits_ne_nil b), hpb]
  dsimp only
  rw [if_neg (by omega), if_neg (by omega)]

/-- A `start-end` spec starting at or beyond `size` is dropped as non-overlapping
(before its end is even validated). -/
theorem parseSpec_ab_noOverlap (size : Int) (a b : Nat) (ha64 : a ≤ 2 ^ 63 - 1)
    (haS : size ≤ (a : Int)) :
    parseSpec size (natDigits a ++ '-' :: natDigits b) = .noOverlap := by
  have hcd : cutDash (natDigits a ++ '-' :: natDigits b) = some (natDigits a, natDigits b) :=
    cutDash_append _ _ (natDigits_no_dash a)
  have hta : trimChars (natDigits a) = natDigits a := trimChars_eq_self _ (natDigits_no_space a)
  have hpa : goParseInt64 (natDigits a) = some (a : Int) := goParseInt64_natDigits a ha64
  unfold parseSpec
  rw [hcd]
  show (if trimChars (natDigits a) = [] then _ else _) = _
  rw [hta, if_neg (natDigits_ne_nil a), hpa]
  dsimp only
  rw [if_neg (by omega), if_pos (by omega)]

/-- C9 invariant at the `parseRangeChars` level. -/
theorem parseRangeChars_invariant (cs : List Char) (size : Int) (rs : List HttpRange)
    (hsize : 0 ≤ size) (h : parseRangeChars cs size = .ok rs) :
    ∀ r ∈ rs, 0 ≤ r.start ∧ 0 ≤ r.length ∧ r.start + r.length ≤ size := by
  unfold parseRangeChars at h
  split at h
  · rw [Except.ok.injEq] at h
    rw [← h]
    intro r hr
    exact absurd hr (by simp)
  · split at h
    · exact absurd h (by simp)
    · split at h
      · exact absurd h (by simp)
      · split at h
        · exact absurd h (by simp)
        · rw [Except.ok.injEq] at h
          rename_i rs' noOv hspecs _
          rw [← h]
          exact parseSpecs_invariant size _ rs' noOv hsize hspecs

theorem take6_bytes (x : List Char) :
    List.take 6 (['b', 'y', 't', 'e', 's', '='] ++ x) = ['b', 'y', 't', 'e', 's', '='] := by
  have h : (['b', 'y', 't', 'e', 's', '='] : List Char).length = 6 := rfl
  rw [← h]
  exact List.take_left _ _

theorem drop6_bytes (x : List Char) :
    List.drop 6 (['b', 'y', 't', 'e', 's', '='] ++ x) = x := by
  have h : (['b', 'y', 't', 'e', 's', '='] : List Char).length = 6 := rfl
  rw [← h]
  exact List.drop_left _ _

theorem parseSpecs_nil (size : Int) : parseSpecs size [] = .ok ([], false) := rfl

theorem parseSpecs_cons (size : Int) (ra : List Char) (rest : List (List Char)) :
    parseSpecs size (ra :: rest) =
      if trimChars ra = [] then parseSpecs size rest
      else
        match parseSpec size (trimChars ra) with
        | .malformed => .error .invalidRange
        | .noOverlap =>
          match parseSpecs size rest with
          | .error e => .error e
          | .ok (rs, _) => .ok (rs, true)
        | .range r =>
          match parseSpecs size rest with
          | .error e => .error e
          | .ok (rs, f) => .ok (r :: rs, f) := rfl

/-- `parseRange` on a well-formed single range `bytes=a-b` with `a ≤ b < size`. -/
theorem parseRange_single (a b : Nat) (size : Int) (hab : a ≤ b) (hbS : (b : Int) < size)
    (hb64 : b ≤ 2 ^ 63 - 1) :
    parseRange ("bytes=" ++ fmtNat a ++ "-" ++ fmtNat b) size =
      .ok [⟨(a : Int), (b : Int) - (a : Int) + 1⟩] := by
  have hdata : ("bytes=" ++ fmtNat a ++ "-" ++ fmtNat b).data =
      ['b', 'y', 't', 'e', 's', '='] ++ (natDigits a ++ '-' :: natDigits b) := by
    simp [fmtNat, String.data_append]
  unfold parseRange parseRangeChars
  rw [hdata]
  rw [if_neg (by simp), take6_bytes, if_neg (by simp), drop6_bytes,
    splitComma_no_comma _ (abSpec_no_comma a b)]
  have hspecs : parseSpecs size [natDigits a ++ '-' :: natDigits b] =
      .ok ([⟨(a : Int), (b : Int) - (a : Int) + 1⟩], false) := by
    rw [parseSpecs_cons,
      if_neg (by rw [trimChars_eq_self _ (abSpec_no_space a b)]; exact abSpec_ne_nil a b),
      trimChars_eq_self _ (abSpec_no_space a b), parseSpec_ab size a b hab hbS hb64,
      parseSpecs_nil]
  rw [hspecs]
  simp

/-- `parseSpecs` over nonempty `a-b` specs that all start at or beyond `size`. -/
theorem parseSpecs_all_noOverlap (size : Int) (specs : List (Nat × Nat)) (hne : specs ≠ [])
    (hstart : ∀ p ∈ specs, size ≤ (p.1 : Int) ∧ p.1 ≤ 2 ^ 63 - 1) :
    parseSpecs size (specs.map (fun p => natDigits p.1 ++ '-' :: natDigits p.2)) =
      .ok ([], true) := by
  induction specs with
  | nil => exact absurd rfl hne
  | cons p rest ih =>
    rw [List.map_cons]
    have hs := hstart p (by simp)
    rw [parseSpecs_cons,
      if_neg (by rw [trimChars_eq_self _ (abSpec_no_space p.1 p.2)]; exact abSpec_ne_nil p.1 p.2),
      trimChars_eq_self _ (abSpec_no_space p.1 p.2),
      parseSpec_ab_noOverlap size p.1 p.2 hs.2 hs.1]
    cases hrest : rest with
    | nil => rfl
    | cons q rest' =>
      rw [← hrest, ih (by rw [hrest]; simp) (fun q hq => hstart q (by simp [hq]))]

/-- The header text for a list of `a-b` specs. -/
def absHeader (specs : List (Nat × Nat)) : String :=
  "bytes=" ++ ⟨joinComma (specs.map (fun p => natDigits p.1 ++ '-' :: natDigits p.2))⟩

/-- C6 parse part: a well-formed header whose specs all start at or beyond
`size` fails as `NoOverlap`, distinct from `InvalidRange`. -/
theorem parseRange_all_noOverlap (size : Int) (specs : List (Nat × Nat)) (hne : specs ≠ [])
    (hstart : ∀ p ∈ specs, size ≤ (p.1 : Int) ∧ p.1 ≤ 2 ^ 63 - 1) :
    parseRange (absHeader specs) size = .error .noOverlap := by
  have hdata : (absHeader specs).data =
      ['b', 'y', 't', 'e', 's', '='] ++
        joinComma (specs.map (fun p => natDigits p.1 ++ '-' :: natDigits p.2)) := by
    simp [absHeader, String.data_append]
  unfold parseRange parseRangeChars
  rw [hdata]
  rw [if_neg (by simp), take6_bytes, if_neg (by simp), drop6_bytes,
    splitComma_joinComma _ (by simpa using hne)
      (by
        intro p hp c hc
        rw [List.mem_map] at hp
        obtain ⟨q, _, rfl⟩ := hp
        exact abSpec_no_comma q.1 q.2 c hc),
    parseSpecs_all_noOverlap size specs hne hstart]
  simp

/-- C10 parse part: only empty specs after the `bytes=` prefix parse to an
empty range list with no error. -/
theorem parseRangeChars_all_empty (cs : List Char) (size : Int)
    (h6 : cs.take 6 = ['b', 'y', 't', 'e', 's', '='])
    (hall : ∀ p ∈ splitComma (cs.drop 6), trimChars p = []) :
    parseRangeChars cs size = .ok [] := by
  have hspecs : ∀ (ps : List (List Char)), (∀ p ∈ ps, trimChars p = []) →
      parseSpecs size ps = .ok ([], false) := by
    intro ps
    induction ps with
    | nil => intro _; rfl
    | cons p rest ih =>
      intro hp
      rw [parseSpecs_cons, if_pos (hp p (by simp))]
      exact ih (fun q hq => hp q (by simp [hq]))
  unfold parseRangeChars
  rw [if_neg (by rintro rfl; simp at h6), if_neg (by rw [h6]; simp),
    hspecs _ hall]
  simp

/-! ## Conditional requests (RFC 7232 machinery in file_download.go) -/

/-- Character values allowed inside an ETag (RFC 7232 2.3, as in `scanETag`). -/
def isETagChar (c : Char) : Bool :=
  c.toNat = 0x21 || (0x23 ≤ c.toNat && c.toNat ≤ 0x7E) || 0x80 ≤ c.toNat

/-- Position of the closing quote, provided everything before it is an
allowed ETag character (the scan loop of `scanETag`). -/
def findClose : List Char → Option Nat
  | [] => none
  | c :: rest =>
    if c = '"' then some 0
    else if isETagChar c then (findClose rest).map (· + 1)
    else none

/-- Body of `scanETag` after trimming, scanning from the opening quote at
index `start` (0, or 2 after a `W/` prefix). -/
def scanETagAt (s : List Char) (start : Nat) : List Char × List Char :=
  if (s.drop start).length < 2 ∨ (s.drop start).head? ≠ some '"' then ([], [])
  else
    match findClose (s.drop (start + 1)) with
    | none => ([], [])
    | some i => (s.take (start + 1 + i + 1), s.drop (start + 1 + i + 1))

/-- `scanETag`: parse a syntactically valid ETag at the front of `s0`,
returning the ETag and the remaining text, or `([], [])` on failure. -/
def scanETag (s0 : List Char) : List Char × List Char :=
  scanETagAt (trimChars s0)
    (if (trimChars s0).take 2 = ['W', '/'] then 2 else 0)

/-- `strings.TrimPrefix a "W/"`. -/
def trimWeakMark (s : List Char) : List Char :=
  if s.take 2 = ['W', '/'] then s.drop 2 else s

/-- `eTagStrongMatch`. -/
def eTagStrongMatch (a b : List Char) : Bool :=
  a == b && !a.isEmpty && a.head? == some '"'

/-- `eTagWeakMatch`. -/
def eTagWeakMatch (a b : List Char) : Bool :=
  trimWeakMark a == trimWeakMark b

/-- `condResult`. -/
inductive CondResult where
  | condNone
  | condTrue
  | condFalse
deriving DecidableEq, Repr

theorem dropWhile_length_le {α} (p : α → Bool) (l : List α) :
    (l.dropWhile p).length ≤ l.length := by
  induction l with
  | nil => simp [List.dropWhile]
  | cons a t ih =>
    rw [List.dropWhile_cons]
    by_cases h : p a
    · simp only [h, if_true]
      calc (t.dropWhile p).length ≤ t.length := ih
        _ ≤ (a :: t).length := by simp
    · simp [h]

theorem trimChars_length_le (cs : List Char) : (trimChars cs).length ≤ cs.length := by
  unfold trimChars
  calc ((cs.dropWhile isASCIISpace).reverse.dropWhile isASCIISpace).reverse.length
      = ((cs.dropWhile isASCIISpace).reverse.dropWhile isASCIISpace).length := by
        rw [List.length_reverse]
    _ ≤ (cs.dropWhile isASCIISpace).reverse.length := dropWhile_length_le _ _
    _ = (cs.dropWhile isASCIISpace).length := by rw [List.length_reverse]
    _ ≤ cs.length := dropWhile_length_le _ _

theorem scanETagAt_remain_lt (s : List Char) (start : Nat) (e r : List Char)
    (h : scanETagAt s start = (e, r)) (he : e ≠ []) : r.length + 2 ≤ s.length := by
  unfold scanETagAt at h
  split at h
  · rw [Prod.mk.injEq] at h
    exact absurd h.1.symm he
  · rename_i hcond
    split at h
    · rw [Prod.mk.injEq] at h
      exact absurd h.1.symm he
    · rw [Prod.mk.injEq] at h
      rw [not_or, not_lt] at hcond
      have hlen : 2 ≤ s.length - start := by
        have := hcond.1
        rwa [List.length_drop] at this
      rw [← h.2, List.length_drop]
      omega

theorem scanETag_remain_lt (s0 : List Char) (e r : List Char)
    (h : scanETag s0 = (e, r)) (he : e ≠ []) : r.length < s0.length := by
  unfold scanETag at h
  have h1 := scanETagAt_remain_lt _ _ _ _ h he
  have h2 := trimChars_length_le s0
  omega

/-- The scan loop of `checkIfMatch`. -/
def ifMatchLoop (resourceETag : List Char) (im : List Char) : CondResult :=
  match h1 : trimChars im with
  | [] => .condFalse
  | c :: rest =>
    if c = ',' then
      have : rest.length < im.length := by
        have := trimChars_length_le im
        rw [h1] at this
        simp at this
        omega
      ifMatchLoop resourceETag rest
    else if c = '*' then .condTrue
    else
      match h2 : scanETag (trimChars im) with
      | (etag, remain) =>
        if he : etag = [] then .condFalse
        else if eTagStrongMatch etag resourceETag then .condTrue
        else
          have : remain.length < im.length := by
            have h3 := scanETag_remain_lt (trimChars im) etag remain h2 he
            have h4 := trimChars_length_le im
            omega
          ifMatchLoop resourceETag remain
termination_by im.length

/-- `checkIfMatch`. -/
def checkIfMatch (outgoing incoming : MD) : CondResult :=
  if pick incoming "If-Match" = "" then .condNone
  else ifMatchLoop (pick outgoing "etag").data (pick incoming "If-Match").data

/-- The scan loop of `checkIfNoneMatch`. -/
def ifNoneMatchLoop (resourceETag : List Char) (buf : List Char) : CondResult :=
  match h1 : trimChars buf with
  | [] => .condTrue
  | c :: rest =>
    if c = ',' then
      have : rest.length < buf.length := by
        have := trimChars_length_le buf
        rw [h1] at this
        simp at this
        omega
      ifNoneMatchLoop resourceETag rest
    else if c = '*' then .condFalse
    else
      match h2 : scanETag (trimChars buf) with
      | (etag, remain) =>
        if he : etag = [] then .condTrue
        else if eTagWeakMatch etag resourceETag then .condFalse
        else
          have : remain.length < buf.length := by
            have h3 := scanETag_remain_lt (trimChars buf) etag remain h2 he
            have h4 := trimChars_length_le buf
            omega
          ifNoneMatchLoop resourceETag remain
termination_by buf.length

/-- `checkIfNoneMatch`. -/
def checkIfNoneMatch (outgoing incoming : MD) : CondResult :=
  if pick incoming "If-None-Match" = "" then .condNone
  else ifNoneMatchLoop (pick outgoing "etag").data (pick incoming "If-None-Match").data

/-! ## Time model (`time.Time` restricted to what the repo uses) -/

/-- A Go `time.Time` instant: Unix seconds and a sub-second nanosecond part
in `[0, 10^9)`. -/
structure GoTime where
  sec : Int
  nsec : Int
deriving DecidableEq, Repr

/-- Unix seconds of Go's zero `time.Time` (January 1, year 1 UTC). -/
def goZeroTimeSec : Int := -62135596800

/-- `time.Time.IsZero`. -/
def goTimeIsZero (t : GoTime) : Bool := t.sec == goZeroTimeSec && t.nsec == 0

/-- `isZeroTime` from file_download.go: zero or Unix epoch. -/
def isZeroTime (t : GoTime) : Bool := goTimeIsZero t || (t.sec == 0 && t.nsec == 0)

/-- `t.Truncate(time.Second)` for an instant with `0 ≤ nsec < 10^9`. -/
def truncateSecond (t : GoTime) : GoTime := ⟨t.sec, 0⟩

/-- `time.Time.Compare`. -/
def goTimeCompare (a b : GoTime) : Int :=
  if a.sec < b.sec then -1
  else if b.sec < a.sec then 1
  else if a.nsec < b.nsec then -1
  else if b.nsec < a.nsec then 1
  else 0

/-- External stdlib dependencies of the download path, abstracted:
`http.ParseTime`, `mime.TypeByExtension ∘ filepath.Ext`,
`http.DetectContentType`, RFC1123 formatting, and the random boundary that
`multipart.NewWriter` generates (always 60 hex characters in Go; modelled as
one fixed string per request). -/
structure Env where
  parseTime : String → Option GoTime
  typeByExtension : String → String
  detectContentType : List Nat → String
  formatRFC1123 : GoTime → String
  boundary : String

/-- `checkIfUnmodifiedSince`. -/
def checkIfUnmodifiedSince (env : Env) (incoming : MD) (modtime : GoTime) : CondResult :=
  if pick incoming "If-Unmodified-Since" = "" ∨ isZeroTime modtime then .condNone
  else
    match env.parseTime (pick incoming "If-Unmodified-Since") with
    | none => .condNone
    | some t =>
      if goTimeCompare (truncateSecond modtime) t ≤ 0 then .condTrue else .condFalse

/-- `checkIfModifiedSince`. -/
def checkIfModifiedSince (env : Env) (incoming : MD) (modtime : GoTime) : CondResult :=
  if pick incoming "If-Modified-Since" = "" ∨ isZeroTime modtime then .condNone
  else
    match env.parseTime (pick incoming "If-Modified-Since") with
    | none => .condNone
    | some t =>
      if goTimeCompare (truncateSecond modtime) t ≤ 0 then .condFalse else .condTrue

/-- `checkIfRange`. -/
def checkIfRange (env : Env) (outgoing incoming : MD) (modtime : GoTime) : CondResult :=
  if pick incoming "If-Range" = "" then .condNone
  else
    match scanETag (pick incoming "If-Range").data with
    | (etag, _) =>
      if etag ≠ [] then
        if eTagStrongMatch etag (pick outgoing "etag").data then .condTrue else .condFalse
      else if goTimeIsZero modtime then .condFalse
      else
        match env.parseTime (pick incoming "If-Range") with
        | none => .condFalse
        | some t => if t.sec = modtime.sec then .condTrue else .condFalse

/-- `setLastModified`. -/
def setLastModified (env : Env) (outgoing : MD) (modTime : GoTime) : MD :=
  if isZeroTime modTime then outgoing
  else mdSet outgoing "last-modified" (env.formatRFC1123 modTime)

/-- `writeNotModified`. -/
def writeNotModified (outgoing : MD) : MD :=
  mdSet
    (let o := mdDelete (mdDelete (mdDelete outgoing "content-type") "content-length")
        "content-encoding"
     if pick o "etag" ≠ "" then mdDelete o "last-modified" else o)
    "code" (fmtNat 304)

/-- The final Range/If-Range step of `checkPreconditions`. -/
def preconditionsRange (env : Env) (outgoing incoming : MD) (modTime : GoTime) :
    MD × Bool × String :=
  if pick incoming "Range" ≠ "" ∧ checkIfRange env outgoing incoming modTime = .condFalse then
    (outgoing, false, "")
  else (outgoing, false, pick incoming "Range")

/-- `checkPreconditions`: returns the (possibly updated) outgoing metadata,
whether a terminal precondition outcome was reached, and the effective Range
header. -/
def checkPreconditions (env : Env) (outgoing incoming : MD) (modTime : GoTime) :
    MD × Bool × String :=
  if (if checkIfMatch outgoing incoming = .condNone then
        checkIfUnmodifiedSince env incoming modTime
      else checkIfMatch outgoing incoming) = .condFalse then
    (mdSet outgoing "code" (fmtNat 412), true, "")
  else
    match checkIfNoneMatch outgoing incoming with
    | .condFalse => (writeNotModified outgoing, true, "")
    | .condNone =>
      if checkIfModifiedSince env incoming modTime = .condFalse then
        (writeNotModified outgoing, true, "")
      else preconditionsRange env outgoing incoming modTime
    | .condTrue => preconditionsRange env outgoing incoming modTime

/-! ## Chunk-stream frames and the download writer (part_004) -/

/-- One event on the gRPC server stream: a `SendHeader` call or a `Send` of
one `HttpBody` frame. -/
inductive Frame where
  | header (md : MD)
  | body (contentType : String) (data : List Nat)
deriving DecidableEq, Repr

def frameData : Frame → List Nat
  | .header _ => []
  | .body _ d => d

/-- All body bytes of a trace, in order. -/
def bodyBytes (evs : List Frame) : List Nat := (evs.map frameData).flatten

/-- The metadata committed by the first `SendHeader` of the trace. -/
def firstHeader : List Frame → MD
  | [] => []
  | .header md :: _ => md
  | .body _ _ :: rest => firstHeader rest

/-- Whether the trace commits a header before any body frame. -/
def headersFirst : List Frame → Bool
  | [] => true
  | .header _ :: _ => true
  | .body _ _ :: _ => false

/-- Split a buffer into maximal chunks of `n` (the write loop of
`downloadServerWriter.Write`). -/
def chunksOf {α} (n : Nat) (l : List α) : List (List α) :=
  if h1 : l.isEmpty then []
  else if h2 : n = 0 then [l]
  else l.take n :: chunksOf n (l.drop n)
termination_by l.length
decreasing_by
  simp only [List.length_drop]
  have hl : 0 < l.length := by
    cases l with
    | nil => exact absurd rfl h1
    | cons a t => simp
  omega

theorem chunksOf_flatten {α} (n : Nat) (l : List α) : (chunksOf n l).flatten = l := by
  generalize hk : l.length = k
  induction k using Nat.strong_induction_on generalizing l with
  | _ k ih =>
    rw [chunksOf]
    by_cases h1 : l.isEmpty
    · rw [dif_pos h1]
      rw [List.isEmpty_iff] at h1
      rw [h1]
      rfl
    · rw [dif_neg h1]
      by_cases h2 : n = 0
      · rw [dif_pos h2]
        simp
      · rw [dif_neg h2, List.flatten_cons]
        have hlp : 0 < l.length := by
          cases l with
          | nil => exact absurd rfl h1
          | cons a t => simp
        have hdrop : (l.drop n).length < k := by
          rw [← hk, List.length_drop]
          omega
        rw [ih (l.drop n).length hdrop (l.drop n) rfl, List.take_append_drop]

/-- `defaultBufSize = 1 << 20` from part_004. -/
def defaultBufSize : Nat := 1 <<< 20

/-- `downloadServerWriter.Write`: one write call split into ≤ 1 MB frames. -/
def writerFrames (ct : String) (data : List Nat) : List Frame :=
  (chunksOf defaultBufSize data).map (Frame.body ct)

theorem bodyBytes_writerFrames (ct : String) (data : List Nat) :
    bodyBytes (writerFrames ct data) = data := by
  unfold bodyBytes writerFrames
  rw [List.map_map]
  have : frameData ∘ Frame.body ct = id := by
    funext d
    rfl
  rw [this, List.map_id, chunksOf_flatten]

theorem bodyBytes_append (a b : List Frame) :
    bodyBytes (a ++ b) = bodyBytes a ++ bodyBytes b := by
  unfold bodyBytes
  rw [List.map_append, List.flatten_append]

/-! ## The download path (`ServeContent`, `serveError`) -/

/-- The result of serving one download request: the ordered stream events,
how many bytes flowed through the `io.Pipe` to the final `io.CopyN`, and the
error `ServeContent` returns. -/
structure ServeOut where
  events : List Frame
  pipeBytes : Nat
  err : Option String
deriving DecidableEq, Repr

/-- `serveError`: strip cache-sensitive headers, emit the plain-text error. -/
def serveError (outgoing : MD) (text : String) (code : Nat) : ServeOut :=
  { events :=
      [.header (mdSet (mdSet (mdSet
          (mdDelete (mdDelete (mdDelete (mdDelete (mdDelete outgoing
            "cache-control") "content-encoding") "etag") "last-modified") "content-length")
          "content-type" "text/plain; charset=utf-8")
          "x-content-type-options" "nosniff")
          "code" (fmtNat code)),
        .body "text/plain; charset=utf-8" (strBytes text)],
    pipeBytes := 0,
    err := none }

/-- The MIME header bytes `multipart.Writer.CreatePart` emits for one range
part (`--boundary`, `Content-Range`, `Content-Type`, blank line). -/
def partHeaderStr (first : Bool) (b ct : String) (ra : HttpRange) (size : Int) : String :=
  (if first then "--" ++ b ++ "\r\n" else "\r\n--" ++ b ++ "\r\n") ++
    "Content-Range: " ++ contentRange ra size ++ "\r\n" ++
    "Content-Type: " ++ ct ++ "\r\n" ++ "\r\n"

/-- The closing boundary `multipart.Writer.Close` emits. -/
def closeBoundaryStr (b : String) : String := "\r\n--" ++ b ++ "--\r\n"

/-- The counting pass of `rangesMIMESize` (a `countingWriter` under a
`multipart.Writer`): per-part MIME header bytes plus the range lengths plus
the closing boundary. -/
def rangesMIMESizeLoop (b ct : String) (size : Int) : Bool → List HttpRange → Int
  | _, [] => ((strBytes (closeBoundaryStr b)).length : Int)
  | first, ra :: rest =>
    ((strBytes (partHeaderStr first b ct ra size)).length : Int) + ra.length +
      rangesMIMESizeLoop b ct size false rest

/-- `rangesMIMESize`: the exact `multipart/byteranges` body size. Go derives
the boundary from a second `multipart.NewWriter`; all generated boundaries
have the same length (60 hex chars), which is all the size depends on, so the
model uses the same boundary string for both writers. -/
def rangesMIMESize (ranges : List HttpRange) (ct : String) (size : Int) (b : String) : Int :=
  rangesMIMESizeLoop b ct size true ranges

/-- `io.CopyN(dst, content-at-pos, n)`: the bytes actually read. -/
def copyNData (src : List Nat) (pos : Nat) (n : Int) : List Nat :=
  (src.drop pos).take n.toNat

/-- The frames the multi-range producer goroutine writes directly to the
stream (the repo wraps `multipart.NewWriter` around the server writer, not
the pipe writer): per range a part-header write, a body copy of exactly
`ra.length` bytes, then the closing boundary; a short copy aborts without the
closing boundary (`CloseWithError`). -/
def producerFrames (b ct : String) (src : List Nat) (size : Int) :
    Bool → List HttpRange → List Frame
  | _, [] => writerFrames ct (strBytes (closeBoundaryStr b))
  | first, ra :: rest =>
    writerFrames ct (strBytes (partHeaderStr first b ct ra size)) ++
      (if (((copyNData src ra.start.toNat ra.length).length : Int) < ra.length) then
        writerFrames ct (copyNData src ra.start.toNat ra.length)
      else
        writerFrames ct (copyNData src ra.start.toNat ra.length) ++
          producerFrames b ct src size false rest)

/-- The common header block at the end of `ServeContent` (accept-ranges,
content-length/transfer-encoding unless a caller-set content-encoding exists
on a non-range response, and the out-of-band status code). -/
def commonHeaders (outgoing : MD) (sendSize : Int) (code : Nat) (hasRanges : Bool) : MD :=
  mdSet
    (if hasRanges ∨ pick (mdSet outgoing "accept-ranges" "bytes") "content-encoding" = "" then
      mdSet (mdSet (mdSet outgoing "accept-ranges" "bytes")
        "content-length" (fmtInt sendSize)) "transfer-encoding" "identity"
    else mdSet outgoing "accept-ranges" "bytes")
    "code" (fmtNat code)

/-- The dispatch on the resolved ranges plus the final header commit and body
copy of `ServeContent`. In the multi-range case the producer goroutine has no
synchronization ordering it after `SendHeader`, so the model takes the legal
schedule that runs it to completion at its spawn point; the pipe never
receives data (nothing writes to `pWriter`), so the final `io.CopyN` observes
end-of-stream and `ServeContent` returns `io.EOF`. -/
def serveRanges (env : Env) (outgoing : MD) (ct : String) (src : List Nat) (size : Int)
    (ranges : List HttpRange) : ServeOut :=
  match ranges with
  | [] =>
    { events := .header (commonHeaders outgoing size 200 false) ::
        writerFrames ct (copyNData src 0 size),
      pipeBytes := 0,
      err := if ((copyNData src 0 size).length : Int) < size then some "EOF" else none }
  | [ra] =>
    { events := .header (commonHeaders (mdSet outgoing "content-range" (contentRange ra size))
          ra.length 206 true) ::
        writerFrames ct (copyNData src ra.start.toNat ra.length),
      pipeBytes := 0,
      err := if ((copyNData src ra.start.toNat ra.length).length : Int) < ra.length then
          some "EOF"
        else none }
  | _ :: _ :: _ =>
    { events := producerFrames env.boundary ct src size true ranges ++
        [.header (commonHeaders
          (mdSet outgoing "content-type" ("multipart/byteranges; boundary=" ++ env.boundary))
          (rangesMIMESize ranges ct size env.boundary) 206 true)],
      pipeBytes := 0,
      err := some "EOF" }

/-- `ServeContent` from file_download.go, over the event-trace model. -/
def ServeContent (env : Env) (incoming : MD) (src : List Nat) (contentType : String)
    (name : String) (modTime : GoTime) (size : Int) : ServeOut :=
  match checkPreconditions env (setLastModified env [] modTime) incoming modTime with
  | (outgoing1, done, rangeReq) =>
    if done then { events := [.header outgoing1], pipeBytes := 0, err := none }
    else
      match
        (if contentType = "" then
          (if env.typeByExtension name = "" then env.detectContentType (src.take 512)
           else env.typeByExtension name)
         else contentType,
         if contentType = "" then
          mdSet outgoing1 "content-type"
            (if env.typeByExtension name = "" then env.detectContentType (src.take 512)
             else env.typeByExtension name)
         else outgoing1) with
      | (ct, outgoing2) =>
        match parseRange rangeReq size with
        | .error .noOverlap =>
          if size = 0 then
            serveRanges env
              (if name ≠ "" then
                mdSet outgoing2 "content-disposition" ("attachment; filename=" ++ name)
              else outgoing2) ct src size []
          else
            serveError (mdSet outgoing2 "content-range" ("bytes */" ++ fmtInt size))
              (rangeErrorText .noOverlap) 416
        | .error .invalidRange => serveError outgoing2 (rangeErrorText .invalidRange) 416
        | .ok ranges0 =>
          serveRanges env
            (if name ≠ "" then
              mdSet outgoing2 "content-disposition" ("attachment; filename=" ++ name)
            else outgoing2) ct src size
            (if sumRangesSize ranges0 > size then [] else ranges0)

/-! ## The upload reader (`uploadServerReader` in part_004) -/

/-- The reader state plus the frames the upload server will deliver. -/
structure UploadState where
  frames : List (List Nat)
  buf : List Nat
  sizeCurrent : Int
  sizeLimit : Int
deriving DecidableEq, Repr

/-- Result of one `Read` call: bytes copied into the caller's buffer,
end-of-stream (the `Recv` error propagated), or `ErrSizeLimitExceeded`. -/
inductive ReadOutcome where
  | ok (data : List Nat)
  | eof
  | sizeLimitExceeded
deriving DecidableEq, Repr

/-- Shared tail of `uploadServerReader.Read` once the source buffer `src` is
chosen (the leftover buffer, or a freshly received frame). -/
def uploadReadStep (st : UploadState) (src : List Nat) (dstLen : Nat) :
    ReadOutcome × UploadState :=
  if st.sizeLimit > 0 ∧ st.sizeCurrent + (min src.length dstLen : Nat) > st.sizeLimit then
    (.sizeLimitExceeded, st)
  else
    (.ok (src.take (min src.length dstLen)),
      { st with
        buf := src.drop (min src.length dstLen),
        sizeCurrent :=
          if st.sizeLimit > 0 then st.sizeCurrent + (min src.length dstLen : Nat)
          else st.sizeCurrent })

/-- `uploadServerReader.Read` with a caller buffer of length `dstLen`. -/
def uploadRead (st : UploadState) (dstLen : Nat) : ReadOutcome × UploadState :=
  if st.buf = [] then
    match st.frames with
    | [] => (.eof, st)
    | f :: rest => uploadReadStep { st with frames := rest } f dstLen
  else uploadReadStep st st.buf dstLen

/-- The source buffer the next `Read` call will use, if any. -/
def uploadPendingSrc (st : UploadState) : Option (List Nat) :=
  if st.buf = [] then st.frames.head? else some st.buf

/-! ## Supporting lemmas for the claim theorems -/


theorem bodyBytes_cons_header (md : MD) (rest : List Frame) :
    bodyBytes (.header md :: rest) = bodyBytes rest := rfl

theorem firstHeader_cons_header (md : MD) (rest : List Frame) :
    firstHeader (.header md :: rest) = md := rfl

theorem fmtInt_coe_nat (n : Nat) : fmtInt (n : Int) = fmtNat n := by
  unfold fmtInt
  rw [if_neg (by omega)]
  simp

theorem chunksOf_nil {α} (n : Nat) : chunksOf n ([] : List α) = [] := by
  rw [chunksOf]
  simp

theorem writerFrames_nil (ct : String) : writerFrames ct [] = [] := by
  unfold writerFrames
  rw [chunksOf_nil]
  rfl

theorem commonHeaders_true (o : MD) (ss : Int) (code : Nat) :
    commonHeaders o ss code true =
      mdSet (mdSet (mdSet (mdSet o "accept-ranges" "bytes")
        "content-length" (fmtInt ss)) "transfer-encoding" "identity") "code" (fmtNat code) := by
  unfold commonHeaders
  rw [if_pos (Or.inl rfl)]

theorem pick_code_commonHeaders (o : MD) (ss : Int) (code : Nat) (hr : Bool) :
    pick (commonHeaders o ss code hr) "code" = fmtNat code := by
  unfold commonHeaders
  rw [pick_set_same]

/-- C8 (amended): every error response emitted through `serveError` — the 416
and 500 paths — strips the five cache-sensitive headers, carries the
plain-text content type and `nosniff`, commits the header before the body,
and sends the error text as the body. 412 responses never pass through
`serveError`: `checkPreconditions` commits `code=412` via `serveDone`'s bare
`SendHeader`, keeping buffered headers such as `last-modified` and sending no
body, as the accompanying counterexample shows. -/
theorem serveError_strips_and_nosniff (outgoing : MD) (text : String) (code : Nat)
    (hcode : code = 416 ∨ code = 500) :
    mdLookup (firstHeader (serveError outgoing text code).events) "cache-control" = none ∧
    mdLookup (firstHeader (serveError outgoing text code).events) "content-encoding" = none ∧
    mdLookup (firstHeader (serveError outgoing text code).events) "etag" = none ∧
    mdLookup (firstHeader (serveError outgoing text code).events) "last-modified" = none ∧
    mdLookup (firstHeader (serveError outgoing text code).events) "content-length" = none ∧
    pick (firstHeader (serveError outgoing text code).events) "content-type" =
      "text/plain; charset=utf-8" ∧
    pick (firstHeader (serveError outgoing text code).events) "x-content-type-options" =
      "nosniff" ∧
    pick (firstHeader (serveError outgoing text code).events) "code" = fmtNat code ∧
    bodyBytes (serveError outgoing text code).events = strBytes text ∧
    headersFirst (serveError outgoing text code).events = true := by
  unfold serveError
  rw [firstHeader_cons_header]
  refine ⟨?_, ?_, ?_, ?_, ?_, ?_, ?_, ?_, ?_, rfl⟩
  · rw [mdLookup_set_ne _ _ _ _ (by decide), mdLookup_set_ne _ _ _ _ (by decide),
      mdLookup_set_ne _ _ _ _ (by decide), mdLookup_delete_ne _ _ _ (by decide),
      mdLookup_delete_ne _ _ _ (by decide), mdLookup_delete_ne _ _ _ (by decide),
      mdLookup_delete_ne _ _ _ (by decide), mdLookup_delete_same]
  · rw [mdLookup_set_ne _ _ _ _ (by decide), mdLookup_set_ne _ _ _ _ (by decide),
      mdLookup_set_ne _ _ _ _ (by decide), mdLookup_delete_ne _ _ _ (by decide),
      mdLookup_delete_ne _ _ _ (by decide), mdLookup_delete_ne _ _ _ (by decide),
      mdLookup_delete_same]
  · rw [mdLookup_set_ne _ _ _ _ (by decide), mdLookup_set_ne _ _ _ _ (by decide),
      mdLookup_set_ne _ _ _ _ (by decide), mdLookup_delete_ne _ _ _ (by decide),
      mdLookup_delete_ne _ _ _ (by decide), mdLookup_delete_same]
  · rw [mdLookup_set_ne _ _ _ _ (by decide), mdLookup_set_ne _ _ _ _ (by decide),
      mdLookup_set_ne _ _ _ _ (by decide), mdLookup_delete_ne _ _ _ (by decide),
      mdLookup_delete_same]
  · rw [mdLookup_set_ne _ _ _ _ (by decide), mdLookup_set_ne _ _ _ _ (by decide),
      mdLookup_set_ne _ _ _ _ (by decide), mdLookup_delete_same]
  · rw [pick_set_ne _ _ _ _ (by decide), pick_set_ne _ _ _ _ (by decide), pick_set_same]
  · rw [pick_set_ne _ _ _ _ (by decide), pick_set_same]
  · rw [pick_set_same]
  · simp [bodyBytes, frameData]

theorem serveError_strips_and_nosniff_witness :
    mdLookup (firstHeader (serveError [("etag", "E"), ("content-length", "9")] "boom" 416).events)
      "etag" = none ∧
    pick (firstHeader (serveError [("etag", "E"), ("content-length", "9")] "boom" 416).events)
      "x-content-type-options" = "nosniff" ∧
    bodyBytes (serveError [("etag", "E"), ("content-length", "9")] "boom" 416).events =
      strBytes "boom" := by
  have h := serveError_strips_and_nosniff [("etag", "E"), ("content-length", "9")] "boom" 416
    (Or.inl rfl)
  exact ⟨h.2.2.1, h.2.2.2.2.2.2.1, h.2.2.2.2.2.2.2.2.1⟩

set_option maxRecDepth 40000 in
/-- C7: with a positive size limit, the `Read` call that would push the
cumulative delivered count past the limit fails with `SizeLimitExceeded`
copying nothing and charging nothing; with limit 0 no limiting happens; and
in the 2×1024-frame / 1024-limit scenario the second read (the frame
crossing the mark) fails mid-stream. -/
theorem uploadRead_size_limit :
    (∀ (st : UploadState) (dstLen : Nat) (s : List Nat),
      uploadPendingSrc st = some s → 0 < st.sizeLimit →
      st.sizeLimit < st.sizeCurrent + (min s.length dstLen : Nat) →
      (uploadRead st dstLen).1 = .sizeLimitExceeded ∧
        (uploadRead st dstLen).2.sizeCurrent = st.sizeCurrent ∧
        (uploadRead st dstLen).2.buf = st.buf) ∧
    (∀ (st : UploadState) (dstLen : Nat), st.sizeLimit = 0 →
      (uploadRead st dstLen).1 ≠ .sizeLimitExceeded) ∧
    ((uploadRead ⟨[List.replicate 1024 0, List.replicate 1024 0], [], 0, 1024⟩ 2048).1 =
        .ok (List.replicate 1024 0) ∧
      (uploadRead (uploadRead ⟨[List.replicate 1024 0, List.replicate 1024 0], [], 0,
        1024⟩ 2048).2 2048).1 = .sizeLimitExceeded ∧
      (uploadRead ⟨[List.replicate 1024 0, List.replicate 1024 0], [], 0,
        1024⟩ 2048).2.frames = [List.replicate 1024 0]) := by
  refine ⟨?_, ?_, ?_⟩
  · intro st dstLen s hpend hlim hover
    unfold uploadPendingSrc at hpend
    unfold uploadRead uploadReadStep
    by_cases hbuf : st.buf = []
    · rw [if_pos hbuf] at hpend ⊢
      cases hf : st.frames with
      | nil =>
        rw [hf] at hpend
        simp at hpend
      | cons f rest =>
        rw [hf, List.head?_cons, Option.some.injEq] at hpend
        subst hpend
        dsimp only
        rw [if_pos ⟨hlim, hover⟩]
        exact ⟨rfl, rfl, rfl⟩
    · rw [if_neg hbuf] at hpend ⊢
      rw [Option.some.injEq] at hpend
      subst hpend
      rw [if_pos ⟨hlim, hover⟩]
      exact ⟨rfl, rfl, rfl⟩
  · intro st dstLen hlim
    unfold uploadRead uploadReadStep
    by_cases hbuf : st.buf = []
    · rw [if_pos hbuf]
      cases st.frames with
      | nil => simp
      | cons f rest =>
        dsimp only
        rw [if_neg (by rintro ⟨h1, -⟩; omega)]
        simp
    · rw [if_neg hbuf]
      rw [if_neg (by rintro ⟨h1, -⟩; omega)]
      simp
  · refine ⟨by decide, by decide, by decide⟩

theorem uploadRead_size_limit_witness :
    (uploadRead ⟨[[5, 6, 7]], [], 2, 4⟩ 8).1 = .sizeLimitExceeded ∧
      (uploadRead ⟨[[5, 6, 7]], [], 2, 4⟩ 8).2.sizeCurrent = 2 :=
  ⟨(uploadRead_size_limit.1 ⟨[[5, 6, 7]], [], 2, 4⟩ 8 [5, 6, 7] (by decide) (by decide)
      (by decide)).1,
    (uploadRead_size_limit.1 ⟨[[5, 6, 7]], [], 2, 4⟩ 8 [5, 6, 7] (by decide) (by decide)
      (by decide)).2.1⟩

/-- With only a `Range` header present, every precondition check falls
through and the Range header survives. -/
theorem checkPreconditions_rangeOnly (env : Env) (outgoing : MD) (s : String) (mt : GoTime) :
    checkPreconditions env outgoing [("Range", s)] mt = (outgoing, false, s) := by
  have hpIM : pick [("Range", s)] "If-Match" = "" := by
    rw [pick_cons_ne _ _ _ (show ("Range" : String) ≠ "If-Match" by decide), pick_nil]
  have hpIUS : pick [("Range", s)] "If-Unmodified-Since" = "" := by
    rw [pick_cons_ne _ _ _ (show ("Range" : String) ≠ "If-Unmodified-Since" by decide), pick_nil]
  have hpINM : pick [("Range", s)] "If-None-Match" = "" := by
    rw [pick_cons_ne _ _ _ (show ("Range" : String) ≠ "If-None-Match" by decide), pick_nil]
  have hpIMS : pick [("Range", s)] "If-Modified-Since" = "" := by
    rw [pick_cons_ne _ _ _ (show ("Range" : String) ≠ "If-Modified-Since" by decide), pick_nil]
  have hpIR : pick [("Range", s)] "If-Range" = "" := by
    rw [pick_cons_ne _ _ _ (show ("Range" : String) ≠ "If-Range" by decide), pick_nil]
  have hIM : checkIfMatch outgoing [("Range", s)] = .condNone := by
    unfold checkIfMatch
    rw [if_pos hpIM]
  have hIUS : checkIfUnmodifiedSince env [("Range", s)] mt = .condNone := by
    unfold checkIfUnmodifiedSince
    rw [if_pos (Or.inl hpIUS)]
  have hINM : checkIfNoneMatch outgoing [("Range", s)] = .condNone := by
    unfold checkIfNoneMatch
    rw [if_pos hpINM]
  have hIMS : checkIfModifiedSince env [("Range", s)] mt = .condNone := by
    unfold checkIfModifiedSince
    rw [if_pos (Or.inl hpIMS)]
  have hIR : checkIfRange env outgoing [("Range", s)] mt = .condNone := by
    unfold checkIfRange
    rw [if_pos hpIR]
  unfold checkPreconditions
  rw [hIM, if_pos rfl, hIUS, if_neg (by decide), hINM]
  show (if checkIfModifiedSince env [("Range", s)] mt = .condFalse then _
    else preconditionsRange env outgoing [("Range", s)] mt) = _
  rw [hIMS, if_neg (by decide)]
  unfold preconditionsRange
  rw [hIR, pick_cons_same,
    if_neg (by rintro ⟨-, hq⟩; exact absurd hq (by decide))]

/-- C9: on every successful parse against a non-negative size, every resolved
range is non-negative and lies within the resource. -/
theorem parseRange_ok_invariant (s : String) (size : Int) (rs : List HttpRange)
    (hsize : 0 ≤ size) (h : parseRange s size = .ok rs) :
    ∀ r ∈ rs, 0 ≤ r.start ∧ 0 ≤ r.length ∧ r.start + r.length ≤ size :=
  parseRangeChars_invariant s.data size rs hsize h

theorem parseRange_ok_invariant_witness :
    0 ≤ (10 : Int) ∧ parseRange "bytes=2-7" 10 = .ok [{ start := 2, length := 6 }] ∧
    0 ≤ ({ start := 2, length := 6 } : HttpRange).start ∧
    0 ≤ ({ start := 2, length := 6 } : HttpRange).length ∧
    ({ start := 2, length := 6 } : HttpRange).start +
      ({ start := 2, length := 6 } : HttpRange).length ≤ 10 :=
  ⟨by decide, rfl,
    parseRange_ok_invariant "bytes=2-7" 10 [{ start := 2, length := 6 }]
      (by decide) rfl { start := 2, length := 6 } (by simp)⟩

theorem copyNData_zero_full (src : List Nat) : copyNData src 0 (src.length : Int) = src := by
  unfold copyNData
  simp

/-- C10: a Range header beginning with `bytes=` whose comma-split specs are
all empty parses successfully to an empty range list (for every size), and
`ServeContent` serves the full content with status 200 and no error. -/
theorem emptySpecs_parse_ok_and_serve_full (env : Env) (src : List Nat) (ct name : String)
    (mt : GoTime) (s : String) (h6 : s.data.take 6 = ['b', 'y', 't', 'e', 's', '='])
    (hall : ∀ p ∈ splitComma (s.data.drop 6), trimChars p = []) :
    (∀ size : Int, parseRange s size = .ok []) ∧
      (ServeContent env [("Range", s)] src ct name mt (src.length : Int)).err = none ∧
      pick (firstHeader (ServeContent env [("Range", s)] src ct name mt
        (src.length : Int)).events) "code" = "200" ∧
      bodyBytes (ServeContent env [("Range", s)] src ct name mt
        (src.length : Int)).events = src := by
  have hparse : ∀ size : Int, parseRange s size = .ok [] := fun size =>
    parseRangeChars_all_empty s.data size h6 hall
  have hserve : ServeContent env [("Range", s)] src ct name mt (src.length : Int) =
      serveRanges env
        (if name ≠ "" then
          mdSet (if ct = "" then
              mdSet (setLastModified env [] mt) "content-type"
                (if env.typeByExtension name = "" then env.detectContentType (src.take 512)
                 else env.typeByExtension name)
            else setLastModified env [] mt)
            "content-disposition" ("attachment; filename=" ++ name)
        else (if ct = "" then
              mdSet (setLastModified env [] mt) "content-type"
                (if env.typeByExtension name = "" then env.detectContentType (src.take 512)
                 else env.typeByExtension name)
            else setLastModified env [] mt))
        (if ct = "" then
          (if env.typeByExtension name = "" then env.detectContentType (src.take 512)
           else env.typeByExtension name)
         else ct)
        src (src.length : Int) [] := by
    unfold ServeContent
    rw [checkPreconditions_rangeOnly]
    dsimp only
    rw [hparse]
    dsimp only
    rw [ite_self, if_neg (by decide)]
  refine ⟨hparse, ?_, ?_, ?_⟩
  · rw [hserve]
    unfold serveRanges
    dsimp only
    rw [copyNData_zero_full]
    simp
  · rw [hserve]
    unfold serveRanges
    dsimp only
    rw [firstHeader_cons_header, pick_code_commonHeaders]
    decide
  · rw [hserve]
    unfold serveRanges
    dsimp only
    rw [bodyBytes_cons_header, copyNData_zero_full, bodyBytes_writerFrames]

theorem bodyBytes_serveError (o : MD) (text : String) (code : Nat) :
    bodyBytes (serveError o text code).events = strBytes text := by
  simp [serveError, bodyBytes, frameData]

/-- C6: a well-formed header whose specs (at least one) all start at or
beyond the size parses as `NoOverlap`; `ServeContent` then answers 416 with
`content-range: bytes */size` and the parser's error text as body — except
when the size is 0, where the range is ignored and the empty content is
served in full with 200. -/
theorem noOverlap_serves_416 (env : Env) (src : List Nat) (ct name : String) (mt : GoTime)
    (specs : List (Nat × Nat)) (hne : specs ≠ [])
    (hstart : ∀ p ∈ specs, (src.length : Int) ≤ (p.1 : Int) ∧ p.1 ≤ 2 ^ 63 - 1) :
    parseRange (absHeader specs) (src.length : Int) = .error .noOverlap ∧
    (0 < src.length →
      (ServeContent env [("Range", absHeader specs)] src ct name mt
        (src.length : Int)).err = none ∧
      pick (firstHeader (ServeContent env [("Range", absHeader specs)] src ct name mt
        (src.length : Int)).events) "code" = "416" ∧
      pick (firstHeader (ServeContent env [("Range", absHeader specs)] src ct name mt
        (src.length : Int)).events) "content-range" = "bytes */" ++ fmtNat src.length ∧
      bodyBytes (ServeContent env [("Range", absHeader specs)] src ct name mt
        (src.length : Int)).events = strBytes "invalid range: failed to overlap") ∧
    (src = [] →
      (ServeContent env [("Range", absHeader specs)] src ct name mt
        (src.length : Int)).err = none ∧
      pick (firstHeader (ServeContent env [("Range", absHeader specs)] src ct name mt
        (src.length : Int)).events) "code" = "200" ∧
      bodyBytes (ServeContent env [("Range", absHeader specs)] src ct name mt
        (src.length : Int)).events = []) := by
  have hparse := parseRange_all_noOverlap (src.length : Int) specs hne hstart
  refine ⟨hparse, ?_, ?_⟩
  · intro hpos
    have hserve : ServeContent env [("Range", absHeader specs)] src ct name mt
        (src.length : Int) =
        serveError (mdSet
          (if ct = "" then
            mdSet (setLastModified env [] mt) "content-type"
              (if env.typeByExtension name = "" then env.detectContentType (src.take 512)
               else env.typeByExtension name)
          else setLastModified env [] mt)
          "content-range" ("bytes */" ++ fmtInt (src.length : Int)))
          (rangeErrorText .noOverlap) 416 := by
      unfold ServeContent
      rw [checkPreconditions_rangeOnly]
      dsimp only
      rw [hparse]
      dsimp only
      rw [if_neg (by decide), if_neg (by omega)]
    refine ⟨?_, ?_, ?_, ?_⟩
    · rw [hserve]
      rfl
    · rw [hserve]
      unfold serveError
      rw [firstHeader_cons_header, pick_set_same]
      decide
    · rw [hserve]
      unfold serveError
      rw [firstHeader_cons_header,
        pick_set_ne _ _ _ _ (by decide), pick_set_ne _ _ _ _ (by decide),
        pick_set_ne _ _ _ _ (by decide), pick_delete_ne _ _ _ (by decide),
        pick_delete_ne _ _ _ (by decide), pick_delete_ne _ _ _ (by decide),
        pick_delete_ne _ _ _ (by decide), pick_delete_ne _ _ _ (by decide),
        pick_set_same, fmtInt_coe_nat]
    · rw [hserve, bodyBytes_serveError]
      rfl
  · intro hnil
    subst hnil
    have hserve : ServeContent env [("Range", absHeader specs)] [] ct name mt
        (([] : List Nat).length : Int) =
        serveRanges env
          (if name ≠ "" then
            mdSet (if ct = "" then
                mdSet (setLastModified env [] mt) "content-type"
                  (if env.typeByExtension name = "" then
                    env.detectContentType (([] : List Nat).take 512)
                   else env.typeByExtension name)
              else setLastModified env [] mt)
              "content-disposition" ("attachment; filename=" ++ name)
          else (if ct = "" then
                mdSet (setLastModified env [] mt) "content-type"
                  (if env.typeByExtension name = "" then
                    env.detectContentType (([] : List Nat).take 512)
                   else env.typeByExtension name)
              else setLastModified env [] mt))
          (if ct = "" then
            (if env.typeByExtension name = "" then
              env.detectContentType (([] : List Nat).take 512)
             else env.typeByExtension name)
           else ct)
          [] (([] : List Nat).length : Int) [] := by
      unfold ServeContent
      rw [checkPreconditions_rangeOnly]
      dsimp only
      rw [hparse]
      dsimp only
      rw [if_neg (by decide), if_pos (by decide)]
    refine ⟨?_, ?_, ?_⟩
    · rw [hserve]
      unfold serveRanges
      dsimp only
      rw [if_neg (by decide)]
    · rw [hserve]
      unfold serveRanges
      dsimp only
      rw [firstHeader_cons_header, pick_code_commonHeaders]
      decide
    · rw [hserve]
      unfold serveRanges
      dsimp only
      rw [bodyBytes_cons_header]
      show bodyBytes (writerFrames _ (copyNData [] 0 0)) = []
      rw [show copyNData [] 0 0 = [] from rfl, writerFrames_nil]
      rfl

theorem noOverlap_serves_416_witness :
    (parseRange (absHeader [(5, 7)]) (([1, 2, 3] : List Nat).length : Int) =
      .error .noOverlap) ∧
    pick (firstHeader (ServeContent ⟨fun _ => none, fun _ => "", fun _ => "x", fun _ => "", "b"⟩
      [("Range", absHeader [(5, 7)])] [1, 2, 3] "t" "f" ⟨0, 0⟩
      (([1, 2, 3] : List Nat).length : Int)).events) "code" = "416" ∧
    pick (firstHeader (ServeContent ⟨fun _ => none, fun _ => "", fun _ => "x", fun _ => "", "b"⟩
      [("Range", absHeader [(5, 7)])] [1, 2, 3] "t" "f" ⟨0, 0⟩
      (([1, 2, 3] : List Nat).length : Int)).events) "content-range" =
      "bytes */" ++ fmtNat ([1, 2, 3] : List Nat).length := by
  have h := noOverlap_serves_416 ⟨fun _ => none, fun _ => "", fun _ => "x", fun _ => "", "b"⟩
    [1, 2, 3] "t" "f" ⟨0, 0⟩ [(5, 7)] (by decide)
    (by
      intro p hp
      rw [List.mem_singleton] at hp
      subst hp
      exact ⟨by decide, by decide⟩)
  exact ⟨h.1, (h.2.1 (by decide)).2.1, (h.2.1 (by decide)).2.2.1⟩

theorem copyNData_single (src : List Nat) (a b : Nat) (hab : a ≤ b) :
    copyNData src ((a : Int)).toNat ((b : Int) - (a : Int) + 1) =
      (src.drop a).take (b - a + 1) := by
  unfold copyNData
  have h1 : ((a : Int)).toNat = a := by omega
  have h2 : ((b : Int) - (a : Int) + 1).toNat = b - a + 1 := by omega
  rw [h1, h2]

/-- C1: a valid single-range request `bytes=a-b` with `a ≤ b < size` yields a
206 response with the exact content-range, content-length `b-a+1`, and the
body bytes `src[a..b+1)`. -/
theorem singleRange_serves_exact (env : Env) (src : List Nat) (ct name : String)
    (mt : GoTime) (a b : Nat) (hab : a ≤ b) (hb : b < src.length)
    (h64 : (src.length : Int) ≤ 2 ^ 63) :
    (ServeContent env [("Range", "bytes=" ++ fmtNat a ++ "-" ++ fmtNat b)] src ct name mt
      (src.length : Int)).err = none ∧
    pick (firstHeader (ServeContent env [("Range", "bytes=" ++ fmtNat a ++ "-" ++ fmtNat b)]
      src ct name mt (src.length : Int)).events) "code" = "206" ∧
    pick (firstHeader (ServeContent env [("Range", "bytes=" ++ fmtNat a ++ "-" ++ fmtNat b)]
      src ct name mt (src.length : Int)).events) "content-range" =
      "bytes " ++ fmtNat a ++ "-" ++ fmtNat b ++ "/" ++ fmtNat src.length ∧
    pick (firstHeader (ServeContent env [("Range", "bytes=" ++ fmtNat a ++ "-" ++ fmtNat b)]
      src ct name mt (src.length : Int)).events) "content-length" = fmtNat (b - a + 1) ∧
    bodyBytes (ServeContent env [("Range", "bytes=" ++ fmtNat a ++ "-" ++ fmtNat b)]
      src ct name mt (src.length : Int)).events = (src.drop a).take (b - a + 1) := by
  have hb64 : b ≤ 2 ^ 63 - 1 := by omega
  have hparse := parseRange_single a b (src.length : Int) hab (by omega) hb64
  have hsum : sumRangesSize [⟨(a : Int), (b : Int) - (a : Int) + 1⟩] =
      (b : Int) - (a : Int) + 1 := by
    unfold sumRangesSize
    simp
  have hguard : (if sumRangesSize [⟨(a : Int), (b : Int) - (a : Int) + 1⟩] >
      (src.length : Int) then ([] : List HttpRange)
      else [⟨(a : Int), (b : Int) - (a : Int) + 1⟩]) =
      [⟨(a : Int), (b : Int) - (a : Int) + 1⟩] := by
    rw [hsum, if_neg (by omega)]
  have hserve : ServeContent env [("Range", "bytes=" ++ fmtNat a ++ "-" ++ fmtNat b)]
      src ct name mt (src.length : Int) =
      serveRanges env
        (if name ≠ "" then
          mdSet (if ct = "" then
              mdSet (setLastModified env [] mt) "content-type"
                (if env.typeByExtension name = "" then env.detectContentType (src.take 512)
                 else env.typeByExtension name)
            else setLastModified env [] mt)
            "content-disposition" ("attachment; filename=" ++ name)
        else (if ct = "" then
              mdSet (setLastModified env [] mt) "content-type"
                (if env.typeByExtension name = "" then env.detectContentType (src.take 512)
                 else env.typeByExtension name)
            else setLastModified env [] mt))
        (if ct = "" then
          (if env.typeByExtension name = "" then env.detectContentType (src.take 512)
           else env.typeByExtension name)
         else ct)
        src (src.length : Int) [⟨(a : Int), (b : Int) - (a : Int) + 1⟩] := by
    unfold ServeContent
    rw [checkPreconditions_rangeOnly]
    dsimp only
    rw [hparse]
    dsimp only
    rw [hguard, if_neg (by decide)]
  have hcopy := copyNData_single src a b hab
  have hlen : (((src.drop a).take (b - a + 1)).length : Int) = (b : Int) - (a : Int) + 1 := by
    simp [List.length_take, List.length_drop]
    omega
  refine ⟨?_, ?_, ?_, ?_, ?_⟩
  · rw [hserve]
    unfold serveRanges
    dsimp only
    rw [hcopy, hlen, if_neg (by omega)]
  · rw [hserve]
    unfold serveRanges
    dsimp only
    rw [firstHeader_cons_header, pick_code_commonHeaders]
    decide
  · rw [hserve]
    unfold serveRanges
    dsimp only
    rw [firstHeader_cons_header, commonHeaders_true,
      pick_set_ne _ _ _ _ (by decide), pick_set_ne _ _ _ _ (by decide),
      pick_set_ne _ _ _ _ (by decide), pick_set_ne _ _ _ _ (by decide),
      pick_set_same]
    unfold contentRange
    have he : (a : Int) + ((b : Int) - (a : Int) + 1) - 1 = (b : Int) := by ring
    dsimp only
    rw [he, fmtInt_coe_nat, fmtInt_coe_nat, fmtInt_coe_nat]
  · rw [hserve]
    unfold serveRanges
    dsimp only
    rw [firstHeader_cons_header, commonHeaders_true,
      pick_set_ne _ _ _ _ (by decide), pick_set_ne _ _ _ _ (by decide), pick_set_same]
    have he : (b : Int) - (a : Int) + 1 = ((b - a + 1 : Nat) : Int) := by omega
    rw [he, fmtInt_coe_nat]
  · rw [hserve]
    unfold serveRanges
    dsimp only
    rw [bodyBytes_cons_header, hcopy, bodyBytes_writerFrames]

theorem singleRange_serves_exact_witness :
    (ServeContent ⟨fun _ => none, fun _ => "", fun _ => "x", fun _ => "", "b"⟩
      [("Range", "bytes=" ++ fmtNat 1 ++ "-" ++ fmtNat 2)] [10, 11, 12, 13] "t" "f" ⟨0, 0⟩
      (([10, 11, 12, 13] : List Nat).length : Int)).err = none ∧
    pick (firstHeader (ServeContent ⟨fun _ => none, fun _ => "", fun _ => "x", fun _ => "", "b"⟩
      [("Range", "bytes=" ++ fmtNat 1 ++ "-" ++ fmtNat 2)] [10, 11, 12, 13] "t" "f" ⟨0, 0⟩
      (([10, 11, 12, 13] : List Nat).length : Int)).events) "code" = "206" ∧
    pick (firstHeader (ServeContent ⟨fun _ => none, fun _ => "", fun _ => "x", fun _ => "", "b"⟩
      [("Range", "bytes=" ++ fmtNat 1 ++ "-" ++ fmtNat 2)] [10, 11, 12, 13] "t" "f" ⟨0, 0⟩
      (([10, 11, 12, 13] : List Nat).length : Int)).events) "content-range" =
      "bytes " ++ fmtNat 1 ++ "-" ++ fmtNat 2 ++ "/" ++ fmtNat ([10, 11, 12, 13] : List Nat).length ∧
    pick (firstHeader (ServeContent ⟨fun _ => none, fun _ => "", fun _ => "x", fun _ => "", "b"⟩
      [("Range", "bytes=" ++ fmtNat 1 ++ "-" ++ fmtNat 2)] [10, 11, 12, 13] "t" "f" ⟨0, 0⟩
      (([10, 11, 12, 13] : List Nat).length : Int)).events) "content-length" = fmtNat (2 - 1 + 1) ∧
    bodyBytes (ServeContent ⟨fun _ => none, fun _ => "", fun _ => "x", fun _ => "", "b"⟩
      [("Range", "bytes=" ++ fmtNat 1 ++ "-" ++ fmtNat 2)] [10, 11, 12, 13] "t" "f" ⟨0, 0⟩
      (([10, 11, 12, 13] : List Nat).length : Int)).events =
      (([10, 11, 12, 13] : List Nat).drop 1).take (2 - 1 + 1) :=
  singleRange_serves_exact ⟨fun _ => none, fun _ => "", fun _ => "x", fun _ => "", "b"⟩
    [10, 11, 12, 13] "t" "f" ⟨0, 0⟩ 1 2 (by decide) (by decide) (by decide)

theorem emptySpecs_parse_ok_and_serve_full_witness :
    (∀ size : Int, parseRange "bytes=,," size = .ok []) ∧
      (ServeContent ⟨fun _ => none, fun _ => "", fun _ => "x", fun _ => "", "b"⟩
        [("Range", "bytes=,,")] [7, 8] "t" "f" ⟨0, 0⟩ 2).err = none ∧
      pick (firstHeader (ServeContent ⟨fun _ => none, fun _ => "", fun _ => "x", fun _ => "", "b"⟩
        [("Range", "bytes=,,")] [7, 8] "t" "f" ⟨0, 0⟩ 2).events) "code" = "200" ∧
      bodyBytes (ServeContent ⟨fun _ => none, fun _ => "", fun _ => "x", fun _ => "", "b"⟩
        [("Range", "bytes=,,")] [7, 8] "t" "f" ⟨0, 0⟩ 2).events = [7, 8] :=
  emptySpecs_parse_ok_and_serve_full ⟨fun _ => none, fun _ => "", fun _ => "x", fun _ => "", "b"⟩
    [7, 8] "t" "f" ⟨0, 0⟩ "bytes=,," (by decide) (by decide)

/-! ## Valid ETags and the scan-loop characterization (for C4, C5) -/

/-- Body of a quoted ETag after the opening quote: allowed characters, then
the closing quote as the final character. -/
def quotedTail : List Char → Bool
  | [] => false
  | c :: rest => if c = '"' then rest.isEmpty else isETagChar c && quotedTail rest

/-- A quoted ETag `"..."`. -/
def startQuoted : List Char → Bool
  | [] => false
  | c :: rest => c = '"' && quotedTail rest

/-- A syntactically valid ETag, exactly one token: optional `W/`, then a
quoted string of allowed characters (what `scanETag` accepts in full). -/
def validETag (e : List Char) : Bool :=
  if e.take 2 = ['W', '/'] then startQuoted (e.drop 2) else startQuoted e

/-- A comma-joined If-(None-)Match list value built from ETag tokens. -/
def joinETags (l : List (List Char)) : String := ⟨joinComma l⟩

theorem quotedTail_decomp (t : List Char) (h : quotedTail t = true) :
    ∃ mid, t = mid ++ ['"'] ∧ ∀ c ∈ mid, isETagChar c = true := by
  induction t with
  | nil => exact absurd h (by decide)
  | cons c rest ih =>
    rw [quotedTail] at h
    by_cases hc : c = '"'
    · rw [if_pos hc] at h
      rw [List.isEmpty_iff] at h
      subst hc h
      exact ⟨[], rfl, by simp⟩
    · rw [if_neg hc, Bool.and_eq_true] at h
      obtain ⟨mid, rfl, hmid⟩ := ih h.2
      refine ⟨c :: mid, rfl, ?_⟩
      intro x hx
      rcases List.mem_cons.mp hx with rfl | hx'
      · exact h.1
      · exact hmid x hx'

theorem startQuoted_decomp (s : List Char) (h : startQuoted s = true) :
    ∃ mid, s = '"' :: (mid ++ ['"']) ∧ ∀ c ∈ mid, isETagChar c = true := by
  cases s with
  | nil => exact absurd h (by decide)
  | cons c rest =>
    rw [startQuoted, Bool.and_eq_true, decide_eq_true_eq] at h
    obtain ⟨rfl, h2⟩ := h
    obtain ⟨mid, rfl, hmid⟩ := quotedTail_decomp rest h2
    exact ⟨mid, rfl, hmid⟩

theorem validETag_decomp (e : List Char) (h : validETag e = true) :
    ∃ w mid, e = w ++ '"' :: (mid ++ ['"']) ∧ (w = [] ∨ w = ['W', '/']) ∧
      ∀ c ∈ mid, isETagChar c = true := by
  unfold validETag at h
  by_cases hw : e.take 2 = ['W', '/']
  · rw [if_pos hw] at h
    obtain ⟨mid, hmid, hall⟩ := startQuoted_decomp _ h
    refine ⟨['W', '/'], mid, ?_, Or.inr rfl, hall⟩
    calc e = e.take 2 ++ e.drop 2 := (List.take_append_drop 2 e).symm
      _ = ['W', '/'] ++ '"' :: (mid ++ ['"']) := by rw [hw, hmid]
  · rw [if_neg hw] at h
    obtain ⟨mid, hmid, hall⟩ := startQuoted_decomp _ h
    exact ⟨[], mid, by simpa using hmid, Or.inl rfl, hall⟩

theorem etagChar_not_space (c : Char) (h : isETagChar c = true) : isASCIISpace c = false := by
  unfold isASCIISpace
  have t1 : c ≠ ' ' := by rintro rfl; exact absurd h (by decide)
  have t2 : c ≠ '\t' := by rintro rfl; exact absurd h (by decide)
  have t3 : c ≠ '\n' := by rintro rfl; exact absurd h (by decide)
  have t4 : c ≠ '\r' := by rintro rfl; exact absurd h (by decide)
  simp [t1, t2, t3, t4]

theorem validETag_no_space (e : List Char) (h : validETag e = true) :
    ∀ c ∈ e, isASCIISpace c = false := by
  obtain ⟨w, mid, rfl, hw, hmid⟩ := validETag_decomp e h
  intro c hc
  rw [List.mem_append] at hc
  rcases hc with hc | hc
  · rcases hw with rfl | rfl
    · exact absurd hc (by simp)
    · simp only [List.mem_cons] at hc
      rcases hc with rfl | rfl | hfalse
      · decide
      · decide
      · exact absurd hfalse (by simp)
  · rcases List.mem_cons.mp hc with rfl | hc'
    · decide
    · rw [List.mem_append] at hc'
      rcases hc' with hc'' | hc''
      · exact etagChar_not_space c (hmid c hc'')
      · rcases List.mem_singleton.mp hc'' with rfl
        decide

theorem validETag_ne_nil (e : List Char) (h : validETag e = true) : e ≠ [] := by
  obtain ⟨w, mid, rfl, -, -⟩ := validETag_decomp e h
  simp

theorem validETag_head (e : List Char) (h : validETag e = true) :
    e.head? = some '"' ∨ e.head? = some 'W' := by
  obtain ⟨w, mid, rfl, hw, -⟩ := validETag_decomp e h
  rcases hw with rfl | rfl
  · left
    rfl
  · right
    rfl

theorem take_len_add {α} (l₁ l₂ : List α) (n : Nat) :
    (l₁ ++ l₂).take (l₁.length + n) = l₁ ++ l₂.take n := by
  induction l₁ with
  | nil => simp
  | cons a t ih => simp [List.take_succ_cons, Nat.succ_add, ih]

theorem drop_len_add {α} (l₁ l₂ : List α) (n : Nat) :
    (l₁ ++ l₂).drop (l₁.length + n) = l₂.drop n := by
  induction l₁ with
  | nil => simp
  | cons a t ih => simp [List.drop_succ_cons, Nat.succ_add, ih]

theorem findClose_append (mid : List Char) (r : List Char)
    (h : ∀ c ∈ mid, isETagChar c = true) :
    findClose (mid ++ '"' :: r) = some mid.length := by
  induction mid with
  | nil =>
    rw [List.nil_append, findClose, if_pos rfl]
    rfl
  | cons c rest ih =>
    have hc : isETagChar c = true := h c (by simp)
    have hq : c ≠ '"' := by rintro rfl; exact absurd hc (by decide)
    rw [List.cons_append, findClose, if_neg hq, if_pos hc,
      ih (fun x hx => h x (by simp [hx]))]
    rfl

/-- `scanETag` consumes exactly a leading valid ETag, returning the rest,
provided the text needs no trimming. -/
theorem scanETag_valid_append (e r : List Char) (hv : validETag e = true)
    (htrim : trimChars (e ++ r) = e ++ r) :
    scanETag (e ++ r) = (e, r) := by
  obtain ⟨w, mid, rfl, hw, hmid⟩ := validETag_decomp e hv
  unfold scanETag
  rw [htrim]
  rcases hw with rfl | rfl
  · rw [List.nil_append] at htrim ⊢
    have h2 : (('"' :: (mid ++ ['"'])) ++ r).take 2 =
        '"' :: ((mid ++ ['"']) ++ r).take 1 := rfl
    rw [if_neg (by
      rw [h2]
      intro hq
      rw [List.cons.injEq] at hq
      exact absurd hq.1 (by decide))]
    unfold scanETagAt
    rw [List.drop_zero]
    rw [if_neg (by
      rw [not_or]
      refine ⟨?_, ?_⟩
      · rw [not_lt]
        simp
        omega
      · intro hc
        exact hc rfl)]
    have hdrop1 : (('"' :: (mid ++ ['"'])) ++ r).drop (0 + 1) = mid ++ '"' :: r := by
      show (mid ++ ['"']) ++ r = mid ++ '"' :: r
      simp
    rw [hdrop1, findClose_append mid r hmid]
    dsimp only
    have hlen : 0 + 1 + mid.length + 1 = ('"' :: (mid ++ ['"'])).length := by
      simp
      omega
    rw [hlen, List.take_left, List.drop_left]
  · have h2 : ((['W', '/'] ++ '"' :: (mid ++ ['"'])) ++ r).take 2 = ['W', '/'] := rfl
    rw [if_pos h2]
    unfold scanETagAt
    have hdrop2 : ((['W', '/'] ++ '"' :: (mid ++ ['"'])) ++ r).drop 2 =
        '"' :: ((mid ++ ['"']) ++ r) := rfl
    rw [hdrop2]
    rw [if_neg (by
      rw [not_or]
      refine ⟨?_, ?_⟩
      · rw [not_lt]
        simp
        omega
      · intro hc
        exact hc rfl)]
    have hdrop3 : ((['W', '/'] ++ '"' :: (mid ++ ['"'])) ++ r).drop (2 + 1) =
        mid ++ '"' :: r := by
      show (mid ++ ['"']) ++ r = mid ++ '"' :: r
      simp
    rw [hdrop3, findClose_append mid r hmid]
    dsimp only
    have hlen : 2 + 1 + mid.length + 1 = (['W', '/'] ++ '"' :: (mid ++ ['"'])).length := by
      simp
      omega
    rw [hlen, List.take_left, List.drop_left]

theorem validETag_head_cases (e : List Char) (h : validETag e = true) :
    ∃ c cs, e = c :: cs ∧ c ≠ ',' ∧ c ≠ '*' := by
  obtain ⟨w, mid, rfl, hw, -⟩ := validETag_decomp e h
  rcases hw with rfl | rfl
  · exact ⟨'"', mid ++ ['"'], by simp, by decide, by decide⟩
  · exact ⟨'W', '/' :: '"' :: (mid ++ ['"']), by simp, by decide, by decide⟩

/-! ### Step lemmas for the `checkIfMatch` / `checkIfNoneMatch` scan loops -/

theorem ifMatchLoop_empty (res im : List Char) (h : trimChars im = []) :
    ifMatchLoop res im = .condFalse := by
  rw [ifMatchLoop]
  split
  · rfl
  · rename_i c rest heq
    rw [h] at heq
    exact absurd heq (by simp)

theorem ifMatchLoop_comma (res im : List Char) (rest : List Char)
    (h : trimChars im = ',' :: rest) : ifMatchLoop res im = ifMatchLoop res rest := by
  rw [ifMatchLoop]
  split
  · rename_i heq
    rw [h] at heq
    exact absurd heq (by simp)
  · rename_i c1 r1 heq
    rw [h, List.cons.injEq] at heq
    obtain ⟨rfl, rfl⟩ := heq
    rw [if_pos rfl]

theorem ifMatchLoop_star (res im : List Char) (rest : List Char)
    (h : trimChars im = '*' :: rest) : ifMatchLoop res im = .condTrue := by
  rw [ifMatchLoop]
  split
  · rename_i heq
    rw [h] at heq
    exact absurd heq (by simp)
  · rename_i c1 r1 heq
    rw [h, List.cons.injEq] at heq
    obtain ⟨rfl, rfl⟩ := heq
    rw [if_neg (by decide), if_pos rfl]

theorem ifMatchLoop_hit (res im : List Char) (c : Char) (cs e r : List Char)
    (htrim : trimChars im = c :: cs) (hc1 : c ≠ ',') (hc2 : c ≠ '*')
    (hscan : scanETag (trimChars im) = (e, r)) (he : e ≠ [])
    (hm : eTagStrongMatch e res = true) : ifMatchLoop res im = .condTrue := by
  rw [ifMatchLoop]
  split
  · rename_i heq
    rw [htrim] at heq
    exact absurd heq (by simp)
  · rename_i c1 r1 heq
    rw [htrim, List.cons.injEq] at heq
    obtain ⟨rfl, rfl⟩ := heq
    rw [if_neg hc1, if_neg hc2]
    simp only [hscan]
    rw [dif_neg he, if_pos hm]

theorem ifMatchLoop_next (res im : List Char) (c : Char) (cs e r : List Char)
    (htrim : trimChars im = c :: cs) (hc1 : c ≠ ',') (hc2 : c ≠ '*')
    (hscan : scanETag (trimChars im) = (e, r)) (he : e ≠ [])
    (hm : eTagStrongMatch e res = false) : ifMatchLoop res im = ifMatchLoop res r := by
  rw [ifMatchLoop]
  split
  · rename_i heq
    rw [htrim] at heq
    exact absurd heq (by simp)
  · rename_i c1 r1 heq
    rw [htrim, List.cons.injEq] at heq
    obtain ⟨rfl, rfl⟩ := heq
    rw [if_neg hc1, if_neg hc2]
    simp only [hscan]
    rw [dif_neg he, if_neg (by simp [hm])]

theorem ifMatchLoop_ne_none (res : List Char) : ∀ im, ifMatchLoop res im ≠ .condNone := by
  intro im
  generalize hk : im.length = k
  induction k using Nat.strong_induction_on generalizing im with
  | _ k ih =>
    rw [ifMatchLoop]
    split
    · decide
    · rename_i c rest heq
      have hlen : (c :: rest).length ≤ im.length := heq ▸ trimChars_length_le im
      rw [List.length_cons] at hlen
      by_cases hc : c = ','
      · rw [if_pos hc]
        exact ih rest.length (by omega) rest rfl
      · rw [if_neg hc]
        by_cases hs : c = '*'
        · rw [if_pos hs]
          decide
        · rw [if_neg hs]
          split
          rename_i e r hscan
          by_cases he : e = []
          · rw [dif_pos he]
            decide
          · rw [dif_neg he]
            by_cases hm : eTagStrongMatch e res
            · rw [if_pos hm]
              decide
            · rw [if_neg hm]
              have hr := scanETag_remain_lt (trimChars im) e r hscan he
              have ht := trimChars_length_le im
              exact ih r.length (by omega) r rfl

theorem ifNoneMatchLoop_empty (res im : List Char) (h : trimChars im = []) :
    ifNoneMatchLoop res im = .condTrue := by
  rw [ifNoneMatchLoop]
  split
  · rfl
  · rename_i c rest heq
    rw [h] at heq
    exact absurd heq (by simp)

theorem ifNoneMatchLoop_comma (res im : List Char) (rest : List Char)
    (h : trimChars im = ',' :: rest) : ifNoneMatchLoop res im = ifNoneMatchLoop res rest := by
  rw [ifNoneMatchLoop]
  split
  · rename_i heq
    rw [h] at heq
    exact absurd heq (by simp)
  · rename_i c1 r1 heq
    rw [h, List.cons.injEq] at heq
    obtain ⟨rfl, rfl⟩ := heq
    rw [if_pos rfl]

theorem ifNoneMatchLoop_hit (res im : List Char) (c : Char) (cs e r : List Char)
    (htrim : trimChars im = c :: cs) (hc1 : c ≠ ',') (hc2 : c ≠ '*')
    (hscan : scanETag (trimChars im) = (e, r)) (he : e ≠ [])
    (hm : eTagWeakMatch e res = true) : ifNoneMatchLoop res im = .condFalse := by
  rw [ifNoneMatchLoop]
  split
  · rename_i heq
    rw [htrim] at heq
    exact absurd heq (by simp)
  · rename_i c1 r1 heq
    rw [htrim, List.cons.injEq] at heq
    obtain ⟨rfl, rfl⟩ := heq
    rw [if_neg hc1, if_neg hc2]
    simp only [hscan]
    rw [dif_neg he, if_pos hm]

theorem ifNoneMatchLoop_next (res im : List Char) (c : Char) (cs e r : List Char)
    (htrim : trimChars im = c :: cs) (hc1 : c ≠ ',') (hc2 : c ≠ '*')
    (hscan : scanETag (trimChars im) = (e, r)) (he : e ≠ [])
    (hm : eTagWeakMatch e res = false) :
    ifNoneMatchLoop res im = ifNoneMatchLoop res r := by
  rw [ifNoneMatchLoop]
  split
  · rename_i heq
    rw [htrim] at heq
    exact absurd heq (by simp)
  · rename_i c1 r1 heq
    rw [htrim, List.cons.injEq] at heq
    obtain ⟨rfl, rfl⟩ := heq
    rw [if_neg hc1, if_neg hc2]
    simp only [hscan]
    rw [dif_neg he, if_neg (by simp [hm])]

/-! ### Comma-joined ETag lists evaluated by the loops -/

theorem joinComma_no_space (l : List (List Char))
    (h : ∀ e ∈ l, ∀ c ∈ e, isASCIISpace c = false) :
    ∀ c ∈ joinComma l, isASCIISpace c = false := by
  induction l with
  | nil => simp [joinComma]
  | cons e rest ih =>
    cases rest with
    | nil =>
      intro c hc
      exact h e (by simp) c (by simpa [joinComma] using hc)
    | cons q rest' =>
      intro c hc
      rw [show joinComma (e :: q :: rest') = e ++ ',' :: joinComma (q :: rest') from rfl,
        List.mem_append] at hc
      rcases hc with hc | hc
      · exact h e (by simp) c hc
      · rcases List.mem_cons.mp hc with rfl | hc'
        · decide
        · exact ih (fun x hx c' hc'' => h x (by simp [hx]) c' hc'') c hc'

theorem joinComma_valid_no_space (l : List (List Char)) (hv : ∀ e ∈ l, validETag e = true) :
    ∀ c ∈ joinComma l, isASCIISpace c = false :=
  joinComma_no_space l (fun e he => validETag_no_space e (hv e he))

theorem ifMatchLoop_join (res : List Char) (l : List (List Char))
    (hv : ∀ e ∈ l, validETag e = true) :
    ifMatchLoop res (joinComma l) =
      if l.any (fun e => eTagStrongMatch e res) then .condTrue else .condFalse := by
  induction l with
  | nil =>
    rw [show joinComma [] = [] from rfl, ifMatchLoop_empty res [] rfl, List.any_nil,
      if_neg (by simp)]
  | cons e rest ih =>
    have hve := hv e (by simp)
    have hene := validETag_ne_nil e hve
    obtain ⟨c, cs, hecs, hc1, hc2⟩ := validETag_head_cases e hve
    cases rest with
    | nil =>
      have htrim : trimChars e = e := trimChars_eq_self e (validETag_no_space e hve)
      have hscan : scanETag e = (e, []) := by
        have := scanETag_valid_append e [] hve (by rw [List.append_nil]; exact htrim)
        rwa [List.append_nil] at this
      rw [show joinComma [e] = e from rfl]
      by_cases hm : eTagStrongMatch e res
      · rw [ifMatchLoop_hit res e c cs e [] (by rw [htrim, hecs]) hc1 hc2
          (by rw [htrim]; exact hscan) hene hm, List.any_cons, hm]
        rw [if_pos (by simp)]
      · rw [ifMatchLoop_next res e c cs e [] (by rw [htrim, hecs]) hc1 hc2
          (by rw [htrim]; exact hscan) hene (by simpa using hm),
          ifMatchLoop_empty res [] rfl, List.any_cons,
          if_neg (by simp [hm])]
    | cons q rest' =>
      have hjoin : joinComma (e :: q :: rest') = e ++ ',' :: joinComma (q :: rest') := rfl
      have htailv : ∀ x ∈ q :: rest', validETag x = true := fun x hx => hv x (by simp [hx])
      have hall : ∀ ch ∈ e ++ ',' :: joinComma (q :: rest'), isASCIISpace ch = false := by
        intro ch hch
        rw [List.mem_append] at hch
        rcases hch with hch | hch
        · exact validETag_no_space e hve ch hch
        · rcases List.mem_cons.mp hch with rfl | hch'
          · decide
          · exact joinComma_valid_no_space _ htailv ch hch'
      have htrim : trimChars (e ++ ',' :: joinComma (q :: rest')) =
          e ++ ',' :: joinComma (q :: rest') := trimChars_eq_self _ hall
      have hscan := scanETag_valid_append e (',' :: joinComma (q :: rest')) hve htrim
      have htrimTail : trimChars (',' :: joinComma (q :: rest')) =
          ',' :: joinComma (q :: rest') := by
        apply trimChars_eq_self
        intro ch hch
        exact hall ch (by simp [hch])
      rw [hjoin]
      by_cases hm : eTagStrongMatch e res
      · rw [ifMatchLoop_hit res _ c (cs ++ ',' :: joinComma (q :: rest')) e
          (',' :: joinComma (q :: rest'))
          (by rw [htrim, hecs]; rfl) hc1 hc2 (by rw [htrim]; exact hscan) hene hm,
          List.any_cons, hm, if_pos (by simp)]
      · rw [ifMatchLoop_next res _ c (cs ++ ',' :: joinComma (q :: rest')) e
          (',' :: joinComma (q :: rest'))
          (by rw [htrim, hecs]; rfl) hc1 hc2 (by rw [htrim]; exact hscan) hene
          (by simpa using hm),
          ifMatchLoop_comma res _ (joinComma (q :: rest')) htrimTail,
          ih htailv]
        simp [show eTagStrongMatch e res = false by simpa using hm]

theorem ifNoneMatchLoop_join (res : List Char) (l : List (List Char))
    (hv : ∀ e ∈ l, validETag e = true) :
    ifNoneMatchLoop res (joinComma l) =
      if l.any (fun e => eTagWeakMatch e res) then .condFalse else .condTrue := by
  induction l with
  | nil =>
    rw [show joinComma [] = [] from rfl, ifNoneMatchLoop_empty res [] rfl, List.any_nil,
      if_neg (by simp)]
  | cons e rest ih =>
    have hve := hv e (by simp)
    have hene := validETag_ne_nil e hve
    obtain ⟨c, cs, hecs, hc1, hc2⟩ := validETag_head_cases e hve
    cases rest with
    | nil =>
      have htrim : trimChars e = e := trimChars_eq_self e (validETag_no_space e hve)
      have hscan : scanETag e = (e, []) := by
        have := scanETag_valid_append e [] hve (by rw [List.append_nil]; exact htrim)
        rwa [List.append_nil] at this
      rw [show joinComma [e] = e from rfl]
      by_cases hm : eTagWeakMatch e res
      · rw [ifNoneMatchLoop_hit res e c cs e [] (by rw [htrim, hecs]) hc1 hc2
          (by rw [htrim]; exact hscan) hene hm, List.any_cons, hm]
        rw [if_pos (by simp)]
      · rw [ifNoneMatchLoop_next res e c cs e [] (by rw [htrim, hecs]) hc1 hc2
          (by rw [htrim]; exact hscan) hene (by simpa using hm),
          ifNoneMatchLoop_empty res [] rfl, List.any_cons,
          if_neg (by simp [hm])]
    | cons q rest' =>
      have hjoin : joinComma (e :: q :: rest') = e ++ ',' :: joinComma (q :: rest') := rfl
      have htailv : ∀ x ∈ q :: rest', validETag x = true := fun x hx => hv x (by simp [hx])
      have hall : ∀ ch ∈ e ++ ',' :: joinComma (q :: rest'), isASCIISpace ch = false := by
        intro ch hch
        rw [List.mem_append] at hch
        rcases hch with hch | hch
        · exact validETag_no_space e hve ch hch
        · rcases List.mem_cons.mp hch with rfl | hch'
          · decide
          · exact joinComma_valid_no_space _ htailv ch hch'
      have htrim : trimChars (e ++ ',' :: joinComma (q :: rest')) =
          e ++ ',' :: joinComma (q :: rest') := trimChars_eq_self _ hall
      have hscan := scanETag_valid_append e (',' :: joinComma (q :: rest')) hve htrim
      have htrimTail : trimChars (',' :: joinComma (q :: rest')) =
          ',' :: joinComma (q :: rest') := by
        apply trimChars_eq_self
        intro ch hch
        exact hall ch (by simp [hch])
      rw [hjoin]
      by_cases hm : eTagWeakMatch e res
      · rw [ifNoneMatchLoop_hit res _ c (cs ++ ',' :: joinComma (q :: rest')) e
          (',' :: joinComma (q :: rest'))
          (by rw [htrim, hecs]; rfl) hc1 hc2 (by rw [htrim]; exact hscan) hene hm,
          List.any_cons, hm, if_pos (by simp)]
      · rw [ifNoneMatchLoop_next res _ c (cs ++ ',' :: joinComma (q :: rest')) e
          (',' :: joinComma (q :: rest'))
          (by rw [htrim, hecs]; rfl) hc1 hc2 (by rw [htrim]; exact hscan) hene
          (by simpa using hm),
          ifNoneMatchLoop_comma res _ (joinComma (q :: rest')) htrimTail,
          ih htailv]
        simp [show eTagWeakMatch e res = false by simpa using hm]

/-- A fixed external environment used for concrete evaluations: no parseable
dates, no extension-derived type, a constant sniffed type and boundary. -/
def envFix : Env :=
  ⟨fun _ => none, fun _ => "", fun _ => "application/octet-stream", fun _ => "", "bnd"⟩

/-- The zero `time.Time`. -/
def mtZero : GoTime := ⟨goZeroTimeSec, 0⟩

theorem joinETags_ne_empty (l : List (List Char)) (hv : ∀ e ∈ l, validETag e = true)
    (hne : l ≠ []) : joinETags l ≠ "" := by
  intro hq
  have hdata : joinComma l = [] := congrArg String.data hq
  cases l with
  | nil => exact hne rfl
  | cons e rest =>
    have hene := validETag_ne_nil e (hv e (by simp))
    cases rest with
    | nil => exact hene hdata
    | cons q rest' =>
      rw [show joinComma (e :: q :: rest') = e ++ ',' :: joinComma (q :: rest') from rfl] at hdata
      simp at hdata

theorem checkIfMatch_ne_none (outgoing incoming : MD) (h : pick incoming "If-Match" ≠ "") :
    checkIfMatch outgoing incoming ≠ .condNone := by
  unfold checkIfMatch
  rw [if_neg h]
  exact ifMatchLoop_ne_none _ _

theorem checkIfMatch_star (outgoing incoming : MD) (h : pick incoming "If-Match" = "*") :
    checkIfMatch outgoing incoming = .condTrue := by
  unfold checkIfMatch
  rw [h, if_neg (by decide)]
  exact ifMatchLoop_star _ _ [] (by decide)

theorem checkIfMatch_join (outgoing incoming : MD) (l : List (List Char))
    (hv : ∀ e ∈ l, validETag e = true) (hne : l ≠ [])
    (hpick : pick incoming "If-Match" = joinETags l) :
    checkIfMatch outgoing incoming =
      if l.any (fun e => eTagStrongMatch e (pick outgoing "etag").data) then .condTrue
      else .condFalse := by
  unfold checkIfMatch
  rw [hpick, if_neg (joinETags_ne_empty l hv hne)]
  exact ifMatchLoop_join _ l hv

theorem checkIfNoneMatch_join (outgoing incoming : MD) (l : List (List Char))
    (hv : ∀ e ∈ l, validETag e = true) (hne : l ≠ [])
    (hpick : pick incoming "If-None-Match" = joinETags l) :
    checkIfNoneMatch outgoing incoming =
      if l.any (fun e => eTagWeakMatch e (pick outgoing "etag").data) then .condFalse
      else .condTrue := by
  unfold checkIfNoneMatch
  rw [hpick, if_neg (joinETags_ne_empty l hv hne)]
  exact ifNoneMatchLoop_join _ l hv

/-- C4: If-Unmodified-Since is consulted only when If-Match is absent (the
outcome is insensitive to it otherwise); `If-Match: *` evaluates true; a list
of ETags evaluates true iff one strong-matches the resource's ETag; and a
false combined check is terminal: 412 with the Range header never surfaced. -/
theorem ifMatch_precedence (env : Env) :
    (∀ (outgoing incoming : MD) (mt : GoTime) (v : String),
      pick incoming "If-Match" ≠ "" →
      checkPreconditions env outgoing (mdSet incoming "If-Unmodified-Since" v) mt =
        checkPreconditions env outgoing incoming mt) ∧
    (∀ outgoing incoming : MD, pick incoming "If-Match" = "*" →
      checkIfMatch outgoing incoming = .condTrue) ∧
    (∀ (outgoing incoming : MD) (l : List (List Char)),
      (∀ e ∈ l, validETag e = true) → l ≠ [] →
      pick incoming "If-Match" = joinETags l →
      checkIfMatch outgoing incoming =
        if l.any (fun e => eTagStrongMatch e (pick outgoing "etag").data) then .condTrue
        else .condFalse) ∧
    (∀ (outgoing incoming : MD) (mt : GoTime),
      (if checkIfMatch outgoing incoming = .condNone
        then checkIfUnmodifiedSince env incoming mt
        else checkIfMatch outgoing incoming) = .condFalse →
      checkPreconditions env outgoing incoming mt =
        (mdSet outgoing "code" (fmtNat 412), true, "")) := by
  refine ⟨?_, checkIfMatch_star, checkIfMatch_join, ?_⟩
  · intro outgoing incoming mt v h
    have hIM : checkIfMatch outgoing (mdSet incoming "If-Unmodified-Since" v) =
        checkIfMatch outgoing incoming := by
      unfold checkIfMatch
      rw [pick_set_ne _ _ _ _ (by decide)]
    have hINM : checkIfNoneMatch outgoing (mdSet incoming "If-Unmodified-Since" v) =
        checkIfNoneMatch outgoing incoming := by
      unfold checkIfNoneMatch
      rw [pick_set_ne _ _ _ _ (by decide)]
    have hIMS : checkIfModifiedSince env (mdSet incoming "If-Unmodified-Since" v) mt =
        checkIfModifiedSince env incoming mt := by
      unfold checkIfModifiedSince
      rw [pick_set_ne _ _ _ _ (by decide)]
    have hIR : checkIfRange env outgoing (mdSet incoming "If-Unmodified-Since" v) mt =
        checkIfRange env outgoing incoming mt := by
      unfold checkIfRange
      rw [pick_set_ne _ _ _ _ (by decide)]
    have hRange : preconditionsRange env outgoing
        (mdSet incoming "If-Unmodified-Since" v) mt =
        preconditionsRange env outgoing incoming mt := by
      unfold preconditionsRange
      rw [pick_set_ne _ _ _ _ (by decide), hIR]
    have hnn := checkIfMatch_ne_none outgoing incoming h
    unfold checkPreconditions
    rw [hIM, hINM, hIMS, hRange, if_neg hnn, if_neg hnn]
  · intro outgoing incoming mt h
    unfold checkPreconditions
    rw [if_pos h]

theorem ifMatch_precedence_witness :
    checkPreconditions envFix []
      (mdSet [("If-Match", "*")] "If-Unmodified-Since" "Mon, 02 Jan 2006 15:04:05 MST")
      mtZero = checkPreconditions envFix [] [("If-Match", "*")] mtZero ∧
    checkIfMatch [("etag", "\"a\"")] [("If-Match", "\"a\"")] = .condTrue := by
  refine ⟨(ifMatch_precedence envFix).1 [] [("If-Match", "*")] mtZero
    "Mon, 02 Jan 2006 15:04:05 MST" (by decide), ?_⟩
  have h := (ifMatch_precedence envFix).2.2.1 [("etag", "\"a\"")] [("If-Match", "\"a\"")]
    [['"', 'a', '"']] (by decide) (by decide) (by decide)
  rw [h]
  decide

theorem writeNotModified_lookups (o : MD) :
    mdLookup (writeNotModified o) "content-type" = none ∧
    mdLookup (writeNotModified o) "content-length" = none ∧
    mdLookup (writeNotModified o) "content-encoding" = none ∧
    (pick o "etag" ≠ "" → mdLookup (writeNotModified o) "last-modified" = none) ∧
    pick (writeNotModified o) "code" = "304" := by
  unfold writeNotModified
  by_cases hE : pick (mdDelete (mdDelete (mdDelete o "content-type") "content-length")
      "content-encoding") "etag" ≠ ""
  · rw [if_pos hE]
    refine ⟨?_, ?_, ?_, ?_, ?_⟩
    · rw [mdLookup_set_ne _ _ _ _ (by decide), mdLookup_delete_ne _ _ _ (by decide),
        mdLookup_delete_ne _ _ _ (by decide), mdLookup_delete_ne _ _ _ (by decide),
        mdLookup_delete_same]
    · rw [mdLookup_set_ne _ _ _ _ (by decide), mdLookup_delete_ne _ _ _ (by decide),
        mdLookup_delete_ne _ _ _ (by decide), mdLookup_delete_same]
    · rw [mdLookup_set_ne _ _ _ _ (by decide), mdLookup_delete_ne _ _ _ (by decide),
        mdLookup_delete_same]
    · intro _
      rw [mdLookup_set_ne _ _ _ _ (by decide), mdLookup_delete_same]
    · rw [pick_set_same]
      decide
  · rw [if_neg hE]
    rw [pick_delete_ne _ _ _ (by decide), pick_delete_ne _ _ _ (by decide),
      pick_delete_ne _ _ _ (by decide)] at hE
    refine ⟨?_, ?_, ?_, ?_, ?_⟩
    · rw [mdLookup_set_ne _ _ _ _ (by decide), mdLookup_delete_ne _ _ _ (by decide),
        mdLookup_delete_ne _ _ _ (by decide), mdLookup_delete_same]
    · rw [mdLookup_set_ne _ _ _ _ (by decide), mdLookup_delete_ne _ _ _ (by decide),
        mdLookup_delete_same]
    · rw [mdLookup_set_ne _ _ _ _ (by decide), mdLookup_delete_same]
    · intro hE'
      exact absurd hE' hE
    · rw [pick_set_same]
      decide

/-- C5 (amended): when the If-Match / If-Unmodified-Since step does not
already fail (here: those headers are absent), an If-None-Match list with an
entry weak-matching the resource's ETag is terminal 304 Not Modified, and the
committed metadata has no content-type/content-length/content-encoding and,
when an ETag is present, no last-modified. -/
theorem ifNoneMatch_weak_not_modified (env : Env) (outgoing incoming : MD) (mt : GoTime)
    (l : List (List Char)) (hv : ∀ e ∈ l, validETag e = true)
    (hmatch : l.any (fun e => eTagWeakMatch e (pick outgoing "etag").data) = true)
    (hIM : pick incoming "If-Match" = "") (hIUS : pick incoming "If-Unmodified-Since" = "")
    (hINM : pick incoming "If-None-Match" = joinETags l) :
    checkPreconditions env outgoing incoming mt = (writeNotModified outgoing, true, "") ∧
    mdLookup (writeNotModified outgoing) "content-type" = none ∧
    mdLookup (writeNotModified outgoing) "content-length" = none ∧
    mdLookup (writeNotModified outgoing) "content-encoding" = none ∧
    (pick outgoing "etag" ≠ "" → mdLookup (writeNotModified outgoing) "last-modified" = none) ∧
    pick (writeNotModified outgoing) "code" = "304" := by
  have hlne : l ≠ [] := by
    rintro rfl
    simp at hmatch
  have hINMres : checkIfNoneMatch outgoing incoming = .condFalse := by
    rw [checkIfNoneMatch_join outgoing incoming l hv hlne hINM, if_pos hmatch]
  have hIMres : checkIfMatch outgoing incoming = .condNone := by
    unfold checkIfMatch
    rw [if_pos hIM]
  have hIUSres : checkIfUnmodifiedSince env incoming mt = .condNone := by
    unfold checkIfUnmodifiedSince
    rw [if_pos (Or.inl hIUS)]
  refine ⟨?_, writeNotModified_lookups outgoing⟩
  unfold checkPreconditions
  rw [hIMres, if_pos rfl, hIUSres, if_neg (by decide), hINMres]

theorem ifNoneMatch_weak_not_modified_witness :
    checkPreconditions envFix [("etag", "\"abc\"")] [("If-None-Match", "\"abc\"")] mtZero =
      (writeNotModified [("etag", "\"abc\"")], true, "") ∧
    mdLookup (writeNotModified [("etag", "\"abc\"")]) "content-type" = none ∧
    mdLookup (writeNotModified [("etag", "\"abc\"")]) "last-modified" = none := by
  have h := ifNoneMatch_weak_not_modified envFix [("etag", "\"abc\"")]
    [("If-None-Match", "\"abc\"")] mtZero [['"', 'a', 'b', 'c', '"']]
    (by decide) (by decide) (by decide) (by decide) (by decide)
  exact ⟨h.1, h.2.1, h.2.2.2.2.1 (by decide)⟩

/-- C5 counterexample: the literal claim quantifies over every request whose
If-None-Match lists a weak-matching ETag, but a request that also carries a
failing If-Match ends as 412, not 304. -/
theorem ifNoneMatch_counterexample :
    eTagWeakMatch ['"', 'a', 'b', 'c', '"']
      (pick [("etag", "\"abc\"")] "etag").data = true ∧
    pick (checkPreconditions envFix [("etag", "\"abc\"")]
      [("If-Match", "\"zzz\""), ("If-None-Match", "\"abc\"")] mtZero).1 "code" = "412" ∧
    (checkPreconditions envFix [("etag", "\"abc\"")]
      [("If-Match", "\"zzz\""), ("If-None-Match", "\"abc\"")] mtZero).2.1 = true ∧
    pick (checkPreconditions envFix [("etag", "\"abc\"")]
      [("If-Match", "\"zzz\""), ("If-None-Match", "\"abc\"")] mtZero).1 "code" ≠ "304" := by
  have hIM : checkIfMatch [("etag", "\"abc\"")]
      [("If-Match", "\"zzz\""), ("If-None-Match", "\"abc\"")] = .condFalse := by
    unfold checkIfMatch
    rw [if_neg (by decide)]
    show ifMatchLoop ['"', 'a', 'b', 'c', '"'] ['"', 'z', 'z', 'z', '"'] = .condFalse
    rw [ifMatchLoop_next ['"', 'a', 'b', 'c', '"'] ['"', 'z', 'z', 'z', '"'] '"'
      ['z', 'z', 'z', '"'] ['"', 'z', 'z', 'z', '"'] [] (by decide) (by decide) (by decide)
      (by decide) (by decide) (by decide)]
    exact ifMatchLoop_empty _ _ rfl
  have hpre : checkPreconditions envFix [("etag", "\"abc\"")]
      [("If-Match", "\"zzz\""), ("If-None-Match", "\"abc\"")] mtZero =
      (mdSet [("etag", "\"abc\"")] "code" (fmtNat 412), true, "") := by
    unfold checkPreconditions
    rw [hIM, if_pos (by decide)]
  rw [hpre]
  refine ⟨by decide, ?_, rfl, ?_⟩
  · rw [pick_set_same]
    decide
  · rw [pick_set_same]
    decide

theorem writerFrames_single (ct : String) (data : List Nat) (hne : data ≠ [])
    (hle : data.length ≤ defaultBufSize) : writerFrames ct data = [.body ct data] := by
  unfold writerFrames
  rw [chunksOf, dif_neg (by simpa using hne), dif_neg (by decide),
    List.take_of_length_le hle, List.drop_eq_nil_of_le hle, chunksOf]
  simp

theorem serveContent_multi_concrete :
    ServeContent envFix [("Range", "bytes=0-0,2-2")] [10, 11, 12, 13] "text/plain" "" mtZero 4 =
      serveRanges envFix (setLastModified envFix [] mtZero) "text/plain" [10, 11, 12, 13] 4
        [⟨0, 1⟩, ⟨2, 1⟩] := by
  have hparse : parseRange "bytes=0-0,2-2" 4 = .ok [⟨0, 1⟩, ⟨2, 1⟩] := rfl
  unfold ServeContent
  rw [checkPreconditions_rangeOnly]
  dsimp only
  rw [hparse]
  dsimp only
  rw [if_neg (by decide), if_neg (by decide), if_neg (by decide), if_neg (by decide)]
  rw [if_neg (by decide)]

theorem multiRange_events_concrete :
    (ServeContent envFix [("Range", "bytes=0-0,2-2")] [10, 11, 12, 13] "text/plain" ""
        mtZero 4).events =
      [Frame.body "text/plain" (strBytes (partHeaderStr true "bnd" "text/plain" ⟨0, 1⟩ 4)),
       Frame.body "text/plain" [10],
       Frame.body "text/plain" (strBytes (partHeaderStr false "bnd" "text/plain" ⟨2, 1⟩ 4)),
       Frame.body "text/plain" [12],
       Frame.body "text/plain" (strBytes (closeBoundaryStr "bnd")),
       Frame.header (commonHeaders
         (mdSet (setLastModified envFix [] mtZero) "content-type"
           ("multipart/byteranges; boundary=" ++ "bnd"))
         (rangesMIMESize [⟨0, 1⟩, ⟨2, 1⟩] "text/plain" 4 "bnd") 206 true)] := by
  rw [serveContent_multi_concrete]
  unfold serveRanges
  dsimp only
  rw [show envFix.boundary = "bnd" from rfl]
  rw [show producerFrames "bnd" "text/plain" [10, 11, 12, 13] 4 true [⟨0, 1⟩, ⟨2, 1⟩] =
      writerFrames "text/plain" (strBytes (partHeaderStr true "bnd" "text/plain" ⟨0, 1⟩ 4)) ++
        (writerFrames "text/plain" [10] ++
          (writerFrames "text/plain"
              (strBytes (partHeaderStr false "bnd" "text/plain" ⟨2, 1⟩ 4)) ++
            (writerFrames "text/plain" [12] ++
              writerFrames "text/plain" (strBytes (closeBoundaryStr "bnd"))))) from rfl]
  rw [writerFrames_single _ _ (by decide) (by decide),
    writerFrames_single _ _ (by decide) (by decide),
    writerFrames_single _ _ (by decide) (by decide),
    writerFrames_single _ _ (by decide) (by decide),
    writerFrames_single _ _ (by decide) (by decide)]
  rfl

/-- C3 (refuted by the code): in the multi-range case the producer goroutine
writes the multipart body directly to the server stream with no
synchronization ordering it after `SendHeader`, so a legal schedule emits
body frames before the header commit: the trace is not headers-first. -/
theorem multiRange_body_before_header :
    headersFirst (ServeContent envFix [("Range", "bytes=0-0,2-2")] [10, 11, 12, 13]
      "text/plain" "" mtZero 4).events = false := by
  rw [multiRange_events_concrete]
  rfl

/-- C2 (refuted by the code): `multipart.NewWriter` wraps the stream writer
instead of the pipe writer, so the multipart bytes bypass the in-process
pipe entirely: the pipe relays zero bytes, the final `io.CopyN` hits
end-of-stream and `ServeContent` returns `io.EOF`, while the committed
content-length still declares the full multipart body size. -/
theorem multiRange_pipe_bypass :
    (ServeContent envFix [("Range", "bytes=0-0,2-2")] [10, 11, 12, 13] "text/plain" ""
        mtZero 4).pipeBytes = 0 ∧
    (ServeContent envFix [("Range", "bytes=0-0,2-2")] [10, 11, 12, 13] "text/plain" ""
        mtZero 4).err = some "EOF" ∧
    pick (firstHeader (ServeContent envFix [("Range", "bytes=0-0,2-2")] [10, 11, 12, 13]
        "text/plain" "" mtZero 4).events) "content-length" =
      fmtInt (rangesMIMESize [⟨0, 1⟩, ⟨2, 1⟩] "text/plain" 4 "bnd") ∧
    rangesMIMESize [⟨0, 1⟩, ⟨2, 1⟩] "text/plain" 4 "bnd" ≠ 0 ∧
    bodyBytes (ServeContent envFix [("Range", "bytes=0-0,2-2")] [10, 11, 12, 13]
      "text/plain" "" mtZero 4).events ≠ [] := by
  refine ⟨rfl, rfl, ?_, by decide, ?_⟩
  · rw [multiRange_events_concrete]
    dsimp only [firstHeader]
    rw [commonHeaders_true, pick_set_ne _ _ _ _ (by decide),
      pick_set_ne _ _ _ _ (by decide), pick_set_same]
  · rw [multiRange_events_concrete]
    decide


/-- C8 counterexample: the original claim also covers 412 responses, but a
412 from a failing `If-Match` precondition is committed by `serveDone`'s bare
`SendHeader`: the buffered `last-modified` header survives, there is no
`text/plain; charset=utf-8` content type, no `nosniff`, and no body text. -/
theorem serve412_keeps_headers :
    pick (firstHeader (ServeContent
      ⟨fun _ => none, fun _ => "", fun _ => "x",
        fun _ => "Mon, 02 Jan 2006 15:04:05 GMT", "b"⟩
      [("If-Match", "\"zzz\"")] [10] "text/plain" "" ⟨1136214245, 0⟩ 1).events) "code" =
      "412" ∧
    mdLookup (firstHeader (ServeContent
      ⟨fun _ => none, fun _ => "", fun _ => "x",
        fun _ => "Mon, 02 Jan 2006 15:04:05 GMT", "b"⟩
      [("If-Match", "\"zzz\"")] [10] "text/plain" "" ⟨1136214245, 0⟩ 1).events)
      "last-modified" = some "Mon, 02 Jan 2006 15:04:05 GMT" ∧
    pick (firstHeader (ServeContent
      ⟨fun _ => none, fun _ => "", fun _ => "x",
        fun _ => "Mon, 02 Jan 2006 15:04:05 GMT", "b"⟩
      [("If-Match", "\"zzz\"")] [10] "text/plain" "" ⟨1136214245, 0⟩ 1).events)
      "x-content-type-options" ≠ "nosniff" ∧
    pick (firstHeader (ServeContent
      ⟨fun _ => none, fun _ => "", fun _ => "x",
        fun _ => "Mon, 02 Jan 2006 15:04:05 GMT", "b"⟩
      [("If-Match", "\"zzz\"")] [10] "text/plain" "" ⟨1136214245, 0⟩ 1).events)
      "content-type" ≠ "text/plain; charset=utf-8" ∧
    bodyBytes (ServeContent
      ⟨fun _ => none, fun _ => "", fun _ => "x",
        fun _ => "Mon, 02 Jan 2006 15:04:05 GMT", "b"⟩
      [("If-Match", "\"zzz\"")] [10] "text/plain" "" ⟨1136214245, 0⟩ 1).events = [] := by
  have hIM : checkIfMatch [("last-modified", "Mon, 02 Jan 2006 15:04:05 GMT")]
      [("If-Match", "\"zzz\"")] = .condFalse := by
    unfold checkIfMatch
    rw [if_neg (by decide)]
    show ifMatchLoop [] ['"', 'z', 'z', 'z', '"'] = .condFalse
    rw [ifMatchLoop_next [] ['"', 'z', 'z', 'z', '"'] '"' ['z', 'z', 'z', '"']
      ['"', 'z', 'z', 'z', '"'] [] (by decide) (by decide) (by decide) (by decide)
      (by decide) (by decide)]
    exact ifMatchLoop_empty _ _ rfl
  have hpre : checkPreconditions
      ⟨fun _ => none, fun _ => "", fun _ => "x",
        fun _ => "Mon, 02 Jan 2006 15:04:05 GMT", "b"⟩
      [("last-modified", "Mon, 02 Jan 2006 15:04:05 GMT")] [("If-Match", "\"zzz\"")]
      ⟨1136214245, 0⟩ =
      (mdSet [("last-modified", "Mon, 02 Jan 2006 15:04:05 GMT")] "code" (fmtNat 412),
        true, "") := by
    unfold checkPreconditions
    rw [hIM, if_pos (by decide)]
  have hserve : ServeContent
      ⟨fun _ => none, fun _ => "", fun _ => "x",
        fun _ => "Mon, 02 Jan 2006 15:04:05 GMT", "b"⟩
      [("If-Match", "\"zzz\"")] [10] "text/plain" "" ⟨1136214245, 0⟩ 1 =
      { events := [.header (mdSet [("last-modified", "Mon, 02 Jan 2006 15:04:05 GMT")]
          "code" (fmtNat 412))],
        pipeBytes := 0, err := none } := by
    unfold ServeContent
    rw [show setLastModified
        ⟨fun _ => none, fun _ => "", fun _ => "x",
          fun _ => "Mon, 02 Jan 2006 15:04:05 GMT", "b"⟩ [] ⟨1136214245, 0⟩ =
        [("last-modified", "Mon, 02 Jan 2006 15:04:05 GMT")] from rfl]
    rw [hpre]
    rfl
  rw [hserve]
  decide

end GatewayFile
